import Mathlib

/-!
Idler: the CLI and service idling passes of the aergia controller

A shallow embedding of `handlers/idler/cli-kubernetes.go` and
`handlers/idler/service-kubernetes.go`.

* Go strings that the code parses (probe output, metric values) are byte
  sequences, `List Nat` with every element a byte value `0..255`.  Names and
  log text, which the code only passes around, are `String`.
* `int` is 64 bits wide (`strconv.IntSize = 64`).
* A pass talks to the cluster, to the pods and to Prometheus.  Their answers
  are the fields of `World`, indexed by the position of the call in the pass,
  and every call and log line is recorded in the trace of the `Run`.
* A run-time panic (nil dereference, slice bounds out of range) ends the run
  with `result = none`; the trace up to the panic is kept.
-/

namespace Idler

/-! ## Go library functions used by the handlers -/

/-- A Go string seen as its bytes. -/
abbrev Bytes := List Nat

/-- The bytes of an ASCII literal. -/
def ascii (s : String) : Bytes := s.toList.map Char.toNat

/-- The constant `utf8.RuneError`. -/
def RuneError : Nat := 0xFFFD

/-- The constant `utf8.RuneSelf`. -/
def RuneSelf : Nat := 0x80

/-- The table `asciiSpace` of package `strings`. -/
def asciiSpace (c : Nat) : Bool :=
  c == 9 || c == 10 || c == 11 || c == 12 || c == 13 || c == 32

/-- The function `unicode.IsSpace`. -/
def IsSpace (r : Nat) : Bool :=
  if r ≤ 0xFF then
    r == 9 || r == 10 || r == 11 || r == 12 || r == 13 || r == 32 || r == 0x85 || r == 0xA0
  else
    r == 0x1680 || (0x2000 ≤ r && r ≤ 0x200A) || r == 0x2028 || r == 0x2029 ||
      r == 0x202F || r == 0x205F || r == 0x3000

/-- The function `utf8.DecodeRuneInString`: the first rune of `s` and its width;
invalid encodings give `(RuneError, 1)`, the empty string `(RuneError, 0)`. -/
def DecodeRuneInString (s : Bytes) : Nat × Nat :=
  match s with
  | [] => (RuneError, 0)
  | s0 :: rest =>
    if s0 < 0x80 then (s0, 1)
    else if s0 < 0xC2 || 0xF4 < s0 then (RuneError, 1)
    else
      let sz := if s0 < 0xE0 then 2 else if s0 < 0xF0 then 3 else 4
      let lo := if s0 == 0xE0 then 0xA0 else if s0 == 0xF0 then 0x90 else 0x80
      let hi := if s0 == 0xED then 0x9F else if s0 == 0xF4 then 0x8F else 0xBF
      if s.length < sz then (RuneError, 1)
      else
        match rest with
        | [] => (RuneError, 1)
        | s1 :: r1 =>
          if s1 < lo || hi < s1 then (RuneError, 1)
          else if sz ≤ 2 then ((s0 % 32) * 64 + s1 % 64, 2)
          else
            match r1 with
            | [] => (RuneError, 1)
            | s2 :: r2 =>
              if s2 < 0x80 || 0xBF < s2 then (RuneError, 1)
              else if sz ≤ 3 then ((s0 % 16) * 4096 + (s1 % 64) * 64 + s2 % 64, 3)
              else
                match r2 with
                | [] => (RuneError, 1)
                | s3 :: _ =>
                  if s3 < 0x80 || 0xBF < s3 then (RuneError, 1)
                  else ((s0 % 8) * 262144 + (s1 % 64) * 4096 + (s2 % 64) * 64 + s3 % 64, 4)

/-- The function `utf8.RuneStart`: the byte is not a continuation byte. -/
def RuneStart (b : Nat) : Bool := !(0x80 ≤ b && b ≤ 0xBF)

/-- The backward scan of `utf8.DecodeLastRuneInString`: from `start` down to
`lim`, stop at the first byte that starts a rune. -/
def lastRuneStart (s : Bytes) (lim : Int) : Nat → Int → Int
  | 0, start => start
  | fuel + 1, start =>
    if lim ≤ start then
      if RuneStart (s.getD start.toNat 0) then start
      else lastRuneStart s lim fuel (start - 1)
    else start

/-- The function `utf8.DecodeLastRuneInString`. -/
def DecodeLastRuneInString (s : Bytes) : Nat × Nat :=
  let stop := s.length
  if stop == 0 then (RuneError, 0)
  else
    let r := s.getD (stop - 1) 0
    if r < RuneSelf then (r, 1)
    else
      let lim : Int := if (stop : Int) - 4 < 0 then 0 else (stop : Int) - 4
      let start0 := lastRuneStart s lim 4 ((stop : Int) - 2)
      let start := if start0 < 0 then 0 else start0.toNat
      let d := DecodeRuneInString (s.drop start)
      if start + d.2 != stop then (RuneError, 1) else d

/-- The loop of `strings.indexFunc s f false`, on the suffix of `s` that starts
at byte `i`: the index of the first rune that does not satisfy `f`. -/
def indexFuncFrom (f : Nat → Bool) : Nat → Nat → Bytes → Option Nat
  | 0, _, _ => none
  | _ + 1, _, [] => none
  | fuel + 1, i, c :: cs =>
    let d := DecodeRuneInString (c :: cs)
    if f d.1 == false then some i
    else indexFuncFrom f fuel (i + d.2) ((c :: cs).drop d.2)

/-- The function `strings.TrimLeftFunc`. -/
def TrimLeftFunc (s : Bytes) (f : Nat → Bool) : Bytes :=
  match indexFuncFrom f s.length 0 s with
  | none => []
  | some i => s.drop i

/-- The loop of `strings.lastIndexFunc s f false`, with `i` the current end:
the index of the last rune that does not satisfy `f`. -/
def lastIndexFuncFrom (f : Nat → Bool) (s : Bytes) : Nat → Nat → Option Nat
  | 0, _ => none
  | fuel + 1, i =>
    if i == 0 then none
    else
      let d := DecodeLastRuneInString (s.take i)
      if f d.1 == false then some (i - d.2)
      else lastIndexFuncFrom f s fuel (i - d.2)

/-- The function `strings.TrimRightFunc`. -/
def TrimRightFunc (s : Bytes) (f : Nat → Bool) : Bytes :=
  match lastIndexFuncFrom f s s.length s.length with
  | some i =>
    if s.getD i 0 ≥ RuneSelf then s.take (i + (DecodeRuneInString (s.drop i)).2)
    else s.take (i + 1)
  | none => s.take 0

/-- The function `strings.TrimFunc`. -/
def TrimFunc (s : Bytes) (f : Nat → Bool) : Bytes :=
  TrimRightFunc (TrimLeftFunc s f) f

/-- The first loop of `strings.TrimSpace`: skip leading ASCII spaces; `true`
when a byte `≥ RuneSelf` is met first.  Returns `s[start:]`. -/
def trimSpaceStart : Bytes → Bool × Bytes
  | [] => (false, [])
  | c :: cs =>
    if c ≥ RuneSelf then (true, c :: cs)
    else if asciiSpace c then trimSpaceStart cs
    else (false, c :: cs)

/-- The second loop of `strings.TrimSpace` on `s = s[start:]`: move `stop`
down over trailing ASCII spaces; `true` when a byte `≥ RuneSelf` is met first. -/
def trimSpaceStop (s : Bytes) : Nat → Bool × Nat
  | 0 => (false, 0)
  | stop + 1 =>
    let c := s.getD stop 0
    if c ≥ RuneSelf then (true, stop + 1)
    else if asciiSpace c then trimSpaceStop s stop
    else (false, stop + 1)

/-- The function `strings.TrimSpace`. -/
def TrimSpace (s : Bytes) : Bytes :=
  match trimSpaceStart s with
  | (true, rest) => TrimFunc rest IsSpace
  | (false, rest) =>
    match trimSpaceStop rest rest.length with
    | (true, stop) => TrimRightFunc (rest.take stop) IsSpace
    | (false, stop) => rest.take stop

/-- The digit loop of the fast path of `strconv.Atoi`; `none` is a syntax error. -/
def atoiFast : Bytes → Nat → Option Nat
  | [], n => some n
  | ch :: cs, n =>
    if 48 ≤ ch && ch ≤ 57 then atoiFast cs (n * 10 + (ch - 48)) else none

/-- The errors of package `strconv`. -/
inductive NumError where
  | ErrSyntax
  | ErrRange
  deriving DecidableEq, Repr

/-- The digit loop of `strconv.ParseUint s 10 64`. -/
def parseUintLoop : Bytes → Nat → Nat × Option NumError
  | [], n => (n, none)
  | c :: cs, n =>
    if 48 ≤ c && c ≤ 57 then
      if n ≥ (2 ^ 64 - 1) / 10 + 1 then (2 ^ 64 - 1, some .ErrRange)
      else if n * 10 + (c - 48) > 2 ^ 64 - 1 then (2 ^ 64 - 1, some .ErrRange)
      else parseUintLoop cs (n * 10 + (c - 48))
    else (0, some .ErrSyntax)

/-- The function `strconv.ParseUint s 10 64`. -/
def ParseUint (s : Bytes) : Nat × Option NumError :=
  if s.isEmpty then (0, some .ErrSyntax) else parseUintLoop s 0

/-- The function `strconv.ParseInt s 10 0` with 64-bit `int`. -/
def ParseInt (s : Bytes) : Int × Option NumError :=
  match s with
  | [] => (0, some .ErrSyntax)
  | c :: cs =>
    let neg := c == 45
    let body := if c == 43 || c == 45 then cs else c :: cs
    match ParseUint body with
    | (_, some .ErrSyntax) => (0, some .ErrSyntax)
    | (un, _) =>
      if !neg && un ≥ 2 ^ 63 then (2 ^ 63 - 1, some .ErrRange)
      else if neg && un > 2 ^ 63 then (-(2 ^ 63), some .ErrRange)
      else (if neg then -(un : Int) else (un : Int), none)

/-- The function `strconv.Atoi`: the value and the error (`none` is `nil`). -/
def Atoi (s : Bytes) : Int × Option NumError :=
  if 0 < s.length && s.length < 19 then
    match s with
    | [] => (0, some .ErrSyntax)
    | c :: cs =>
      let body := if c == 45 || c == 43 then cs else c :: cs
      if body.length < 1 then (0, some .ErrSyntax)
      else
        match atoiFast body 0 with
        | none => (0, some .ErrSyntax)
        | some n => (if c == 45 then -(n : Int) else (n : Int), none)
  else ParseInt s

/-- The function `strconv.FormatInt i 10`, also the `%d` verb of `fmt`. -/
def FormatInt (i : Int) : String := toString i

/-- Conversion of an integer to `int` (64 bits, two's complement). -/
def wrapInt (x : Int) : Int := (x + 2 ^ 63) % 2 ^ 64 - 2 ^ 63

/-- The call `len(strings.Split(s, sep))` for a non-empty `sep`: one more than
the number of non-overlapping occurrences of `sep`. -/
def splitCount (sep : List Char) : Nat → List Char → Nat
  | 0, _ => 1
  | _ + 1, [] => 1
  | fuel + 1, c :: cs =>
    if sep.isPrefixOf (c :: cs) then 1 + splitCount sep fuel ((c :: cs).drop sep.length)
    else splitCount sep fuel cs

/-! ## Data model -/

/-- A Go `error`: one handed back by a collaborator, or one built by
`fmt.Errorf` from the given format string. -/
inductive Error where
  | fromWorld (msg : String)
  | errorf (format : String)
  deriving DecidableEq, Repr

/-- The text of an error under the `%v` verb. -/
def Error.text : Error → String
  | .fromWorld msg => msg
  | .errorf format => format

/-- A non-nil `*int32`: the address of the variable and its value. -/
structure Int32Ptr where
  addr : Nat
  val : Int
  deriving DecidableEq, Repr

/-- The expression `new(int32)` followed by the store of `v`: a variable at an
address that no live variable has. -/
def newInt32 (live : List Nat) (v : Int) : Int32Ptr :=
  ⟨live.foldl max 0 + 1, v⟩

/-- Go pointer comparison `p != q` (`none` is the nil pointer). -/
def ptrNe : Option Int32Ptr → Option Int32Ptr → Bool
  | none, none => false
  | some p, some q => p.addr != q.addr
  | _, _ => true

/-- One `corev1.EnvVar`. -/
structure EnvVar where
  Name : String
  Value : String
  deriving DecidableEq, Repr

/-- One `corev1.Container`, reduced to the field the handlers read. -/
structure Container where
  Env : List EnvVar
  deriving DecidableEq, Repr

/-- One `appsv1.Deployment`: `ObjectMeta.Name`, `Spec.Replicas` and
`Spec.Template.Spec.Containers`. -/
structure Deployment where
  Name : String
  Replicas : Option Int32Ptr
  Containers : List Container
  deriving DecidableEq, Repr

/-- One `corev1.Pod`: `ObjectMeta.Name`, `Status.Phase` and whether
`Status.StartTime` is set (with its Unix time). -/
structure Pod where
  Name : String
  Phase : String
  StartTime : Option Int
  deriving DecidableEq, Repr

/-- One `networkv1.Ingress`. -/
structure Ingress where
  Name : String
  deriving DecidableEq, Repr

/-- The addresses of the `Replicas` variables of a deployment listing. -/
def liveAddrs (ds : List Deployment) : List Nat :=
  ds.filterMap fun d => d.Replicas.map fun p => p.addr

/-- A JSON merge patch as the handlers build it: `spec.replicas`,
`metadata.labels` and `metadata.annotations`; an absent member is `none` or
the empty list. -/
structure MergePatch where
  replicas : Option Int
  labels : List (String × String)
  annotations : List (String × String)
  deriving DecidableEq, Repr

/-- The patch `\x7b"spec":\x7b"replicas":0\x7d\x7d` of `kubernetesCLI`. -/
def scalePatch : MergePatch := ⟨some 0, [], []⟩

/-- The patch of `idleDeployments`. -/
def idlePatch (idledAt unidleReplicas : String) : MergePatch :=
  { replicas := some 0
    labels := [("idling.amazee.io/watch", "true")]
    annotations :=
      [("idling.amazee.io/idled-at", idledAt),
       ("idling.amazee.io/unidle-replicas", unidleReplicas),
       ("idling.amazee.io/idled", "true")] }

/-- The patch of `patchIngress`. -/
def ingressPatch : MergePatch :=
  ⟨none, [], [("nginx.ingress.kubernetes.io/custom-http-errors", "503")]⟩

/-- The value of an annotation in a patch. -/
def MergePatch.lookup (p : MergePatch) (key : String) : Option String :=
  (p.annotations.find? fun kv => kv.1 == key).map fun kv => kv.2

/-- The result of a Prometheus query: a vector with the text
`elem.Value.String()` of every sample, or a value of another type. -/
inductive QueryValue where
  | vector (samples : List Bytes)
  | other
  deriving DecidableEq, Repr

/-- What `v1api.Query` returns when it does not fail. -/
structure QueryResponse where
  result : QueryValue
  warnings : List String
  deriving DecidableEq, Repr

/-- The skip flags of `h.Selectors.CLI`. -/
structure CLISelectors where
  SkipBuildCheck : Bool
  SkipCronCheck : Bool
  SkipProcessCheck : Bool
  deriving DecidableEq, Repr

/-- The skip flags of `h.Selectors.Service`. -/
structure ServiceSelectors where
  SkipBuildCheck : Bool
  SkipHitCheck : Bool
  SkipIngressPatch : Bool
  deriving DecidableEq, Repr

/-- The field `h.Selectors`; the label selectors themselves only choose what
the cluster lists, which is the part of `World`. -/
structure Selectors where
  CLI : CLISelectors
  Service : ServiceSelectors
  ServiceName : String
  deriving DecidableEq, Repr

/-- The fields of `Handler` that the two passes read. -/
structure Handler where
  Selectors : Selectors
  DryRun : Bool
  Debug : Bool
  PrometheusCheckInterval : String
  deriving DecidableEq, Repr

/-- The answers of the collaborators during one pass.  `i` is the index of the
deployment being handled in the listing, `j` the index of the pod in the pod
listing made for it, `k` the index of the ingress in the ingress listing. -/
structure World where
  /-- `Client.List` of the build pods. -/
  builds : Except Error (List Pod)
  /-- `Client.List` of the deployments. -/
  deployments : Except Error (List Deployment)
  /-- `Client.List` of the pods, issued while handling deployment `i`. -/
  pods : Nat → Except Error (List Pod)
  /-- `execPod` into pod `j` while handling deployment `i`: its stdout. -/
  execPod : Nat → Nat → Except Error Bytes
  /-- `Client.Patch` of deployment `i` issued at pod `j` (`kubernetesCLI`). -/
  patchCLI : Nat → Nat → Option Error
  /-- The value `int(time.Now().Sub(StartTime).Minutes())` for pod `j` of deployment `i`. -/
  elapsedMinutes : Nat → Nat → Int
  /-- `v1api.Query`. -/
  query : Except Error QueryResponse
  /-- `Client.List` of the ingresses. -/
  ingresses : Except Error (List Ingress)
  /-- `Client.Patch` of ingress `k`. -/
  patchIngress : Nat → Option Error
  /-- `Client.Patch` of deployment `i` (`idleDeployments`). -/
  patchIdle : Nat → Option Error
  /-- `time.Now().Format(time.RFC3339)` when deployment `i` is idled. -/
  now : Nat → String

/-- The log lines of the two files, with their arguments. -/
inductive Msg where
  | errBuilds (ns : String)
  | runningBuild
  | errDeployments
  | runningReplicas (name : String) (replicas : Int)
  | isAlreadyIdled (name : String)
  | checkingCronjobs (name : String)
  | cronjobsDefined (name : String) (count : Nat)
  | errListingPods
  | checkingProcesses (pod : String)
  | errExec (pod : String)
  | noProcesses (pod : String)
  | errScaling (name : String)
  | scaledTo0 (name : String)
  | wouldBeScaled (name : String)
  | alreadyIdled (name : String)
  | podRunningFor (pod : String) (minutes : Int)
  | podWillBeIdled (pod : String) (idleMinutes : Int)
  | checkingHits
  | errQuery (err : Error)
  | warnings (ws : List String)
  | hadHits (numHits : Int) (interval : String)
  | noIdlingNeeded
  | ignoringHits
  | notIdled
  | willBeIdled
  | errGettingIngress
  | errPatchingIngress (name : String)
  | ingressPatched (name : String)
  | ingressWouldBePatched (name : String)
  deriving DecidableEq, Repr

/-- The text of a log line, as its `fmt.Sprintf` call formats it. -/
def Msg.text : Msg → String
  | .errBuilds ns => "Error getting running builds for namespace " ++ ns
  | .runningBuild => "Environment has running build, skipping"
  | .errDeployments => "Error getting deployments"
  | .runningReplicas name r =>
    "Deployment " ++ name ++ " has " ++ FormatInt r ++ " running replicas"
  | .isAlreadyIdled name => "Deployment " ++ name ++ " is already idled"
  | .checkingCronjobs name => "Checking deployment " ++ name ++ " for cronjobs"
  | .cronjobsDefined name n =>
    "Deployment " ++ name ++ " has " ++ FormatInt n ++ " cronjobs defined"
  | .errListingPods => "Error listing pods"
  | .checkingProcesses pod => "Checking pod " ++ pod ++ " for running processes"
  | .errExec pod => "Error when trying to exec to pod " ++ pod
  | .noProcesses pod => "Pod " ++ pod ++ " has no running processes, idling"
  | .errScaling name => "Error scaling deployment " ++ name
  | .scaledTo0 name => "Deployment " ++ name ++ " scaled to 0"
  | .wouldBeScaled name => "Deployment " ++ name ++ " would be scaled to 0"
  | .alreadyIdled name => "Deployment " ++ name ++ " already idled"
  | .podRunningFor pod m =>
    "Pod " ++ pod ++ " has been running for " ++ FormatInt m ++ " minutes"
  | .podWillBeIdled pod m =>
    "Pod " ++ pod ++ " will be idled as it has been running for more than " ++
      FormatInt m ++ " minutes"
  | .checkingHits => "Environment marked for idling, checking routerlogs for hits"
  | .errQuery err => "Error querying Prometheus: " ++ err.text ++ "\n"
  | .warnings ws => "Warnings: [" ++ " ".intercalate ws ++ "]\n"
  | .hadHits n interval =>
    "Environment has had " ++ FormatInt n ++ " hits in the last " ++ interval
  | .noIdlingNeeded => "Environment does not need idling"
  | .ignoringHits => "Environment marked for idling, ignoring the routerlogs for hits"
  | .notIdled => "Environment not idled due to errors patching ingress"
  | .willBeIdled => "Environment will be idled"
  | .errGettingIngress => "Error getting ingress"
  | .errPatchingIngress name => "Error patching ingress " ++ name
  | .ingressPatched name => "Ingress " ++ name ++ " patched"
  | .ingressWouldBePatched name => "Ingress " ++ name ++ " would be patched"

/-- What a pass does to the outside, in order. -/
inductive Event where
  /-- `Client.List` of build pods in the namespace. -/
  | listBuilds (ns : String)
  /-- `Client.List` of deployments in the namespace. -/
  | listDeployments (ns : String)
  /-- `Client.List` of pods; `service` is the value matched against the
  `ServiceName` label, `none` when the CLI pod selector is used. -/
  | listPods (ns : String) (service : Option String)
  /-- `Client.List` of ingresses in the namespace. -/
  | listIngress (ns : String)
  /-- `execPod` of the probe command in a pod. -/
  | execPod (pod ns : String)
  /-- `v1api.Query` of the given query string. -/
  | query (promQuery : String)
  /-- `Client.Patch` on a deployment. -/
  | patchDeployment (name : String) (patch : MergePatch)
  /-- `Client.Patch` on an ingress. -/
  | patchIngress (name : String) (patch : MergePatch)
  /-- `opLog.Info`. -/
  | info (m : Msg)
  /-- `opLog.Error`. -/
  | error (m : Msg)
  /-- `fmt.Printf`. -/
  | printf (m : Msg)
  deriving DecidableEq, Repr

/-- The run of a piece of handler code: what it did, and its value, `none`
when it ended in a run-time panic. -/
structure Run (α : Type) where
  trace : List Event
  result : Option α

/-- Sequencing of runs: a panic ends the run. -/
def Run.bind {α β : Type} (m : Run α) (f : α → Run β) : Run β :=
  match m.result with
  | none => ⟨m.trace, none⟩
  | some a => ⟨m.trace ++ (f a).trace, (f a).result⟩

instance : Monad Run where
  pure a := ⟨[], some a⟩
  bind := Run.bind

/-- Record one event. -/
def emit (e : Event) : Run Unit := ⟨[e], some ()⟩

/-- A run-time panic. -/
def panic {α : Type} : Run α := ⟨[], none⟩

/-- Record the event when the condition holds. -/
def emitIf (c : Bool) (e : Event) : Run Unit := if c then emit e else pure ()

/-- The dereference `*p` of a `*int32`: a nil pointer panics. -/
def deref (p : Option Int32Ptr) : Run Int :=
  match p with
  | none => panic
  | some q => pure q.val

/-! ## `cli-kubernetes.go` -/

/-- The slice expression `s[lo:]`; `none` is the panic "slice bounds out of
range". -/
def sliceFrom (s : Bytes) (lo : Int) : Option Bytes :=
  if lo < 0 || (s.length : Int) < lo then none else some (s.drop lo.toNat)

/-- Lines 115-121 of `kubernetesCLI`: the value of `processCount` derived from
the stdout of the probe; `none` when the slice expression panics. -/
def processCount (stdout : Bytes) : Option Int :=
  let trimmed := TrimSpace stdout
  match sliceFrom trimmed ((trimmed.length : Int) - 1) with
  | none => none
  | some last =>
    let r := Atoi last
    if r.2 == none then
      if r.1 > 0 then some r.1 else some 0
    else some 0

/-- Lines 75-84: the loop over the environment of one container, up to its
`break`: the log line of the first `CRONJOBS` variable with a non-empty value. -/
def cronEnv (name : String) : List EnvVar → Option Msg
  | [] => none
  | env :: rest =>
    if env.Name == "CRONJOBS" && 0 < env.Value.utf8ByteSize then
      some (.cronjobsDefined name
        (splitCount ['\\', 'n'] env.Value.length env.Value.toList))
    else cronEnv name rest

/-- Lines 74-85: the loop over the containers, with the value of `hasCrons`. -/
def cronContainers (name : String) : List Container → Bool → Run Bool
  | [], hasCrons => pure hasCrons
  | container :: rest, hasCrons =>
    match cronEnv name container.Env with
    | some m => do
      emit (.info m)
      cronContainers name rest true
    | none => cronContainers name rest hasCrons

/-- Lines 100-125: the probe of one pod.  `none` is the `break` out of the pod
loop, `some c` the value of `processCount` after the check. -/
def probePod (h : Handler) (w : World) (ns : String) (i j : Nat) (pod : Pod) :
    Run (Option Int) :=
  if !h.Selectors.CLI.SkipProcessCheck then do
    emitIf h.Debug (.info (.checkingProcesses pod.Name))
    emit (.execPod pod.Name ns)
    match w.execPod i j with
    | .error _ => do
      emit (.error (.errExec pod.Name))
      pure none
    | .ok stdout =>
      match processCount stdout with
      | none => panic
      | some c => do
        emitIf (c == 0) (.info (.noProcesses pod.Name))
        pure (some c)
  else pure (some 0)

/-- Lines 127-141: scale the deployment to zero, or say so under dry-run. -/
def scaleCLI (h : Handler) (w : World) (i j : Nat) (deployment : Deployment) : Run Unit :=
  if !h.DryRun then do
    emit (.patchDeployment deployment.Name scalePatch)
    match w.patchCLI i j with
    | some _ => emit (.error (.errScaling deployment.Name))
    | none => emit (.info (.scaledTo0 deployment.Name))
  else emit (.info (.wouldBeScaled deployment.Name))

/-- Lines 99-143: the loop over the listed pods, from pod `j` on. -/
def cliPods (h : Handler) (w : World) (ns : String) (i : Nat) (deployment : Deployment) :
    Nat → List Pod → Run Unit
  | _, [] => pure ()
  | j, pod :: rest => do
    match ← probePod h w ns i j pod with
    | none => pure ()
    | some c =>
      if c == 0 then do
        scaleCLI h w i j deployment
        cliPods h w ns i deployment (j + 1) rest
      else cliPods h w ns i deployment (j + 1) rest

/-- Lines 72-86: the cron check, with the value of `hasCrons`. -/
def cronCheck (h : Handler) (deployment : Deployment) : Run Bool :=
  if !h.Selectors.CLI.SkipCronCheck then
    cronContainers deployment.Name deployment.Containers false
  else pure false

/-- Lines 88-144: list the pods and run the pod loop. -/
def cliCheckPods (h : Handler) (w : World) (ns : String) (i : Nat)
    (deployment : Deployment) : Run Unit := do
  emit (.listPods ns none)
  match w.pods i with
  | .error _ => emit (.error .errListingPods)
  | .ok pods => cliPods h w ns i deployment 0 pods

/-- Lines 59-145: the body of the deployment loop for the deployment at index
`i` of the listing `all`.  `false` is the `break` out of the loop. -/
def cliDeployment (h : Handler) (w : World) (ns : String) (all : List Deployment)
    (i : Nat) (deployment : Deployment) : Run Bool :=
  let zeroReps := newInt32 (liveAddrs all) 0
  if ptrNe deployment.Replicas (some zeroReps) then do
    let replicas ← deref deployment.Replicas
    emit (.info (.runningReplicas deployment.Name replicas))
    emitIf h.Debug (.info (.checkingCronjobs deployment.Name))
    let hasCrons ← cronCheck h deployment
    if !hasCrons then do
      cliCheckPods h w ns i deployment
      pure true
    else pure true
  else do
    emit (.info (.isAlreadyIdled deployment.Name))
    pure false

/-- Lines 58-146: the loop over the listed deployments, from index `i` on. -/
def cliDeployments (h : Handler) (w : World) (ns : String) (all : List Deployment) :
    Nat → List Deployment → Run Unit
  | _, [] => pure ()
  | i, deployment :: rest => do
    if ← cliDeployment h w ns all i deployment then
      cliDeployments h w ns all (i + 1) rest
    else pure ()

/-- Lines 29-43: the build check of `kubernetesCLI`, with the value of
`runningBuild`. -/
def cliBuildCheck (h : Handler) (w : World) (ns : String) : Run Bool :=
  if !h.Selectors.CLI.SkipBuildCheck then do
    emit (.listBuilds ns)
    match w.builds with
    | .error _ => do
      emit (.error (.errBuilds ns))
      pure false
    | .ok builds =>
      if builds.any fun build => build.Phase == "Running" then do
        emit (.info .runningBuild)
        pure true
      else pure false
  else pure false

/-- The method `kubernetesCLI` for the namespace named `ns`. -/
def kubernetesCLI (h : Handler) (w : World) (ns : String) : Run Unit := do
  let runningBuild ← cliBuildCheck h w ns
  if !runningBuild then do
    emit (.listDeployments ns)
    match w.deployments with
    | .error _ => emit (.error .errDeployments)
    | .ok deployments => cliDeployments h w ns deployments 0 deployments
  else pure ()

/-! ## `service-kubernetes.go` -/

/-- Lines 177-212: the body of the loop of `idleDeployments` for the
deployment at index `i`. -/
def idleDeployment (h : Handler) (w : World) (i : Nat) (deployment : Deployment) : Run Unit :=
  if !h.DryRun then do
    let replicas ← deref deployment.Replicas
    let idleReplicas : Int := if replicas > 0 then replicas else 1
    emit (.patchDeployment deployment.Name (idlePatch (w.now i) (FormatInt idleReplicas)))
    match w.patchIdle i with
    | some _ => emit (.info (.errScaling deployment.Name))
    | none => emit (.info (.scaledTo0 deployment.Name))
  else emit (.info (.wouldBeScaled deployment.Name))

/-- Lines 173-213: the loop of `idleDeployments`, from index `i` on. -/
def idleDeploymentsFrom (h : Handler) (w : World) : Nat → List Deployment → Run Unit
  | _, [] => pure ()
  | i, deployment :: rest => do
    idleDeployment h w i deployment
    idleDeploymentsFrom h w (i + 1) rest

/-- The method `idleDeployments`. -/
def idleDeployments (h : Handler) (w : World) (deployments : List Deployment) : Run Unit :=
  idleDeploymentsFrom h w 0 deployments

/-- Lines 236-256: the loop of `patchIngress`, from index `k` on; the value is
the returned error. -/
def patchIngressFrom (h : Handler) (w : World) : Nat → List Ingress → Run (Option Error)
  | _, [] => pure none
  | k, ingress :: rest =>
    if !h.DryRun then do
      emit (.patchIngress ingress.Name ingressPatch)
      match w.patchIngress k with
      | some _ => do
        emit (.info (.errPatchingIngress ingress.Name))
        pure (some (.errorf ("Error patching ingress " ++ ingress.Name)))
      | none => do
        emit (.info (.ingressPatched ingress.Name))
        patchIngressFrom h w (k + 1) rest
    else do
      emit (.info (.ingressWouldBePatched ingress.Name))
      patchIngressFrom h w (k + 1) rest

/-- The method `patchIngress`; the value is the returned error (`none` is `nil`). -/
def patchIngress (h : Handler) (w : World) (ns : String) : Run (Option Error) :=
  if !h.Selectors.Service.SkipIngressPatch then do
    emit (.listIngress ns)
    match w.ingresses with
    | .error _ => do
      emit (.error .errGettingIngress)
      pure (some (.errorf "Error getting ingress"))
    | .ok ingressList => patchIngressFrom h w 0 ingressList
  else pure none

/-- Lines 31-46: the build check of `kubernetesServices`. -/
def serviceBuildCheck (h : Handler) (w : World) (ns : String) : Run Bool :=
  if !h.Selectors.Service.SkipBuildCheck then do
    emit (.listBuilds ns)
    match w.builds with
    | .error _ => do
      emit (.error (.errBuilds ns))
      pure false
    | .ok builds =>
      if builds.any fun build => build.Phase == "Running" || build.Phase == "Pending" then do
        emit (.info .runningBuild)
        pure true
      else pure false
  else pure false

/-- Lines 91-104: the loop over the pods of deployment `i`, from pod `j` on,
with the value of `idle`. -/
def servicePods (h : Handler) (w : World) (idleMinutes : Int) (i : Nat) :
    Nat → List Pod → Bool → Run Bool
  | _, [], idle => pure idle
  | j, pod :: rest, idle =>
    match pod.StartTime with
    | some _ => do
      let hs := w.elapsedMinutes i j
      emitIf h.Debug (.info (.podRunningFor pod.Name hs))
      if hs ≥ idleMinutes then do
        emit (.info (.podWillBeIdled pod.Name idleMinutes))
        servicePods h w idleMinutes i (j + 1) rest true
      else servicePods h w idleMinutes i (j + 1) rest idle
    | none => servicePods h w idleMinutes i (j + 1) rest idle

/-- Lines 66-76: the zero-replica test, with the value of `checkPods`. -/
def checkReplicas (h : Handler) (all : List Deployment) (deployment : Deployment) : Run Bool :=
  let zeroReps := newInt32 (liveAddrs all) 0
  if ptrNe deployment.Replicas (some zeroReps) then do
    let replicas ← deref deployment.Replicas
    emit (.info (.runningReplicas deployment.Name replicas))
    pure true
  else do
    emitIf h.Debug (.info (.alreadyIdled deployment.Name))
    pure false

/-- Lines 65-106: the loop over the listed deployments, from index `i` on, with
the value of `idle`. -/
def serviceDeployments (h : Handler) (w : World) (ns : String) (idleMinutes : Int)
    (all : List Deployment) : Nat → List Deployment → Bool → Run Bool
  | _, [], idle => pure idle
  | i, deployment :: rest, idle => do
    let checkPods ← checkReplicas h all deployment
    if checkPods then do
      emit (.listPods ns (some deployment.Name))
      match w.pods i with
      | .error _ => do
        emit (.error .errListingPods)
        pure idle
      | .ok pods => do
        let idle ← servicePods h w idleMinutes i 0 pods idle
        serviceDeployments h w ns idleMinutes all (i + 1) rest idle
    else serviceDeployments h w ns idleMinutes all (i + 1) rest idle

/-- Lines 140-146: the value of `numHits` after the query. -/
def numHits : QueryValue → Int
  | .vector samples => samples.foldl (fun n value => wrapInt (n + (Atoi value).1)) 0
  | .other => 0

/-- Lines 109-155: the hit check; `false` is a `return` out of the pass. -/
def hitCheck (h : Handler) (w : World) (ns : String) (idleMinutes : Int)
    (environmentType : String) : Run Bool :=
  if !h.Selectors.Service.SkipHitCheck then do
    emit (.info .checkingHits)
    let timeRange :=
      if environmentType == "production" then FormatInt idleMinutes ++ "m"
      else h.PrometheusCheckInterval
    let promQuery :=
      "round(sum(increase(nginx_ingress_controller_requests\x7bexported_namespace=\"" ++ ns ++
        "\"\x7d[" ++ timeRange ++ "])) by (status))"
    emit (.query promQuery)
    match w.query with
    | .error err => do
      emit (.printf (.errQuery err))
      pure false
    | .ok response => do
      emitIf (0 < response.warnings.length) (.printf (.warnings response.warnings))
      emit (.info (.hadHits (numHits response.result) h.PrometheusCheckInterval))
      if numHits response.result != 0 then do
        emit (.info .noIdlingNeeded)
        pure false
      else pure true
  else do
    emit (.info .ignoringHits)
    pure true

/-- Lines 108-167: what `kubernetesServices` does once `idle` is set. -/
def actuate (h : Handler) (w : World) (ns : String) (idleMinutes : Int)
    (environmentType : String) (deployments : List Deployment) : Run Unit := do
  if ← hitCheck h w ns idleMinutes environmentType then
    match ← patchIngress h w ns with
    | some _ => emit (.info .notIdled)
    | none => do
      emit (.info .willBeIdled)
      idleDeployments h w deployments
  else pure ()

/-- The method `kubernetesServices` for the namespace named `ns`. -/
def kubernetesServices (h : Handler) (w : World) (ns lagoonProject : String)
    (idleMinutes : Int) (environmentType : String) : Run Unit := do
  let _ := lagoonProject
  let runningBuild ← serviceBuildCheck h w ns
  if !runningBuild then do
    emit (.listDeployments ns)
    match w.deployments with
    | .error _ => emit (.error .errDeployments)
    | .ok deployments =>
      let idle ← serviceDeployments h w ns idleMinutes deployments 0 deployments false
      if idle then actuate h w ns idleMinutes environmentType deployments
      else pure ()
  else pure ()

/-! ## Views of a trace -/

/-- The event is a `Client.Patch` on a deployment. -/
def Event.isDeploymentPatch : Event → Bool
  | .patchDeployment _ _ => true
  | _ => false

/-- The event is a `Client.Patch` on an ingress. -/
def Event.isIngressPatch : Event → Bool
  | .patchIngress _ _ => true
  | _ => false

/-- The event is a `Client.Patch`. -/
def Event.isPatch (e : Event) : Bool := e.isDeploymentPatch || e.isIngressPatch

/-- The event is an `execPod` probe. -/
def Event.isProbe : Event → Bool
  | .execPod _ _ => true
  | _ => false

/-- The event is a listing of pods. -/
def Event.isPodListing : Event → Bool
  | .listPods _ _ => true
  | _ => false

/-- The event is a listing of deployments. -/
def Event.isDeploymentListing : Event → Bool
  | .listDeployments _ => true
  | _ => false

/-- The resource a patch is aimed at. -/
inductive Target where
  | deployment (name : String)
  | ingress (name : String)
  deriving DecidableEq, Repr

/-- The target of a `Client.Patch` event. -/
def Event.patched : Event → Option Target
  | .patchDeployment name _ => some (.deployment name)
  | .patchIngress name _ => some (.ingress name)
  | _ => none

/-- The target named by a dry-run log line. -/
def Event.intended : Event → Option Target
  | .info (.wouldBeScaled name) => some (.deployment name)
  | .info (.ingressWouldBePatched name) => some (.ingress name)
  | _ => none

/-- The targets of the patches issued in a trace, in order. -/
def patches (t : List Event) : List Target := t.filterMap Event.patched

/-- The targets of the dry-run log lines of a trace, in order. -/
def intents (t : List Event) : List Target := t.filterMap Event.intended

/-! ## Sample worlds -/

/-- A handler with every check enabled, no dry-run, no debug output. -/
def h0 : Handler :=
  { Selectors :=
      { CLI := ⟨false, false, false⟩
        Service := ⟨false, false, false⟩
        ServiceName := "lagoon.sh/service" }
    DryRun := false
    Debug := false
    PrometheusCheckInterval := "4h" }

/-- The handler `h0` with the dry-run flag set. -/
def h0dry : Handler := { h0 with DryRun := true }

/-- A world with no builds, no deployments, no pods, no ingresses, an empty
metrics vector and no failing call. -/
def w0 : World :=
  { builds := .ok []
    deployments := .ok []
    pods := fun _ => .ok []
    execPod := fun _ _ => .ok (ascii "0\n")
    patchCLI := fun _ _ => none
    elapsedMinutes := fun _ _ => 0
    query := .ok ⟨.vector [], []⟩
    ingresses := .ok []
    patchIngress := fun _ => none
    patchIdle := fun _ => none
    now := fun _ => "2024-01-01T00:00:00Z" }

/-- A deployment with the given name and replica count. -/
def dep (name : String) (addr : Nat) (replicas : Int) : Deployment :=
  ⟨name, some ⟨addr, replicas⟩, []⟩

/-- A running pod with a start time. -/
def pod (name : String) : Pod := ⟨name, "Running", some 0⟩


/-! ## Properties of runs -/

/-- Every event of the run satisfies `A`. -/
def Only {α : Type} (A : Event → Prop) (r : Run α) : Prop := ∀ e ∈ r.trace, A e

/-- The event is neither a patch, nor a dry-run line, nor the line that
announces the idling. -/
def Event.passive : Event → Bool
  | .patchDeployment _ _ => false
  | .patchIngress _ _ => false
  | .info (.wouldBeScaled _) => false
  | .info (.ingressWouldBePatched _) => false
  | .info .willBeIdled => false
  | _ => true

/-- Every event of the run is passive. -/
def Passive {α : Type} (r : Run α) : Prop := Only (fun e => e.passive = true) r

/-- The handler with its dry-run flag set to `b`. -/
def withDryRun (h : Handler) (b : Bool) : Handler := { h with DryRun := b }

/-- A run without dry-run and a run with dry-run that go the same way: the
patches of the first are the dry-run lines of the second. -/
def Sim {α : Type} (real dry : Run α) : Prop :=
  patches real.trace = intents dry.trace ∧ real.result = dry.result

/-- The value of a byte read as a character: that of a decimal digit, and 0
for every other byte. -/
def digitValue (c : Nat) : Int := if 48 ≤ c ∧ c ≤ 57 then ((c - 48 : Nat) : Int) else 0

/-- The annotation key of the unidle-replica hint. -/
def unidleReplicasKey : String := "idling.amazee.io/unidle-replicas"

/-- A world with a build pod in phase "Running" and a CLI deployment. -/
def wBuild : World :=
  { w0 with
    builds := .ok [⟨"build-1", "Running", some 0⟩]
    deployments := .ok [dep "cli" 1 1]
    pods := fun _ => .ok [pod "cli-1"] }

/-- A world for the service pass: two deployments, one of them at zero
replicas, a pod older than the threshold, one ingress, two samples "0". -/
def wService : World :=
  { w0 with
    deployments := .ok [dep "nginx" 1 2, dep "php" 2 0]
    pods := fun _ => .ok [pod "p"]
    elapsedMinutes := fun _ _ => 300
    ingresses := .ok [⟨"ing"⟩]
    query := .ok ⟨.vector [ascii "0", ascii "0"], []⟩ }

/-- The world `wService` where the patch of every ingress fails. -/
def wIngressPatchFails : World :=
  { wService with patchIngress := fun _ => some (.fromWorld "forbidden") }

/-- The world `wService` where the ingress listing fails. -/
def wIngressListFails : World :=
  { wService with ingresses := .error (.fromWorld "timeout") }

/-- A world for the CLI pass: one deployment, two pods, the first with three
processes and the second with none. -/
def wMixedPods : World :=
  { w0 with
    deployments := .ok [dep "cli" 1 1]
    pods := fun _ => .ok [pod "cli-1", pod "cli-2"]
    execPod := fun _ j => if j = 0 then .ok (ascii "3\n") else .ok (ascii "0\n") }

/-- A world for the CLI pass: one deployment, two pods, three processes in each. -/
def wBusyPods : World :=
  { w0 with
    deployments := .ok [dep "cli" 1 1]
    pods := fun _ => .ok [pod "cli-1", pod "cli-2"]
    execPod := fun _ _ => .ok (ascii "3\n") }

/-- A world for the CLI pass: one deployment at zero replicas and an idle pod. -/
def wZeroReplicas : World :=
  { w0 with
    deployments := .ok [dep "cli" 1 0]
    pods := fun _ => .ok [pod "cli-1"] }

/-- A world for the CLI pass where the probe prints nothing. -/
def wBlankProbe : World :=
  { w0 with
    deployments := .ok [dep "cli" 1 1]
    pods := fun _ => .ok [pod "cli-1"]
    execPod := fun _ _ => .ok (ascii "") }

/-- A world for the CLI pass where the probe prints text that is no number. -/
def wTextProbe : World :=
  { w0 with
    deployments := .ok [dep "cli" 1 1]
    pods := fun _ => .ok [pod "cli-1"]
    execPod := fun _ _ => .ok (ascii "sh: pgrep: not found\n") }

/-- A deployment whose `Spec.Replicas` is nil. -/
def depNil (name : String) : Deployment := ⟨name, none, []⟩

/-! ## The run monad -/

theorem bind_trace {α β : Type} (m : Run α) (f : α → Run β) :
    (m >>= f).trace = m.trace ++ (match m.result with | some a => (f a).trace | none => []) := by
  show (Run.bind m f).trace = _
  unfold Run.bind
  cases m.result <;> simp

theorem bind_result {α β : Type} (m : Run α) (f : α → Run β) :
    (m >>= f).result = m.result.bind fun a => (f a).result := by
  show (Run.bind m f).result = _
  unfold Run.bind
  cases m.result <;> simp

@[simp] theorem pure_trace {α : Type} (a : α) : (pure a : Run α).trace = [] := rfl

@[simp] theorem pure_result {α : Type} (a : α) : (pure a : Run α).result = some a := rfl

@[simp] theorem emit_trace (e : Event) : (emit e).trace = [e] := rfl

@[simp] theorem emit_result (e : Event) : (emit e).result = some () := rfl

@[simp] theorem panic_trace {α : Type} : (panic : Run α).trace = [] := rfl

@[simp] theorem panic_result {α : Type} : (panic : Run α).result = none := rfl

@[simp] theorem emitIf_result (c : Bool) (e : Event) : (emitIf c e).result = some () := by
  cases c <;> rfl

@[simp] theorem emitIf_trace (c : Bool) (e : Event) :
    (emitIf c e).trace = if c then [e] else [] := by
  cases c <;> rfl

@[simp] theorem emit_bind_trace {β : Type} (e : Event) (f : Unit → Run β) :
    (emit e >>= f).trace = e :: (f ()).trace := by
  simp [bind_trace]

@[simp] theorem emit_bind_result {β : Type} (e : Event) (f : Unit → Run β) :
    (emit e >>= f).result = (f ()).result := by
  simp [bind_result]

@[simp] theorem emitIf_bind_trace {β : Type} (c : Bool) (e : Event) (f : Unit → Run β) :
    (emitIf c e >>= f).trace = (if c then [e] else []) ++ (f ()).trace := by
  simp [bind_trace]

@[simp] theorem emitIf_bind_result {β : Type} (c : Bool) (e : Event) (f : Unit → Run β) :
    (emitIf c e >>= f).result = (f ()).result := by
  simp [bind_result]


theorem Only.bind {α β : Type} {A : Event → Prop} {m : Run α} {f : α → Run β}
    (hm : Only A m) (hf : ∀ a, m.result = some a → Only A (f a)) : Only A (m >>= f) := by
  intro e he
  rw [bind_trace] at he
  rcases List.mem_append.1 he with h | h
  · exact hm e h
  · cases hr : m.result with
    | none => simp [hr] at h
    | some a => rw [hr] at h; exact hf a hr e h

theorem Only.nil {α : Type} {A : Event → Prop} {r : Run α} (h : r.trace = []) : Only A r := by
  intro e he
  rw [h] at he
  cases he

theorem Only.pure {α : Type} {A : Event → Prop} (a : α) : Only A (pure a : Run α) :=
  Only.nil rfl

theorem Only.emit {A : Event → Prop} {e : Event} (h : A e) : Only A (emit e) := by
  intro e' he'
  simp at he'
  rw [he']; exact h

theorem Only.emitIf {A : Event → Prop} {e : Event} (c : Bool) (h : A e) :
    Only A (emitIf c e) := by
  cases c
  · exact Only.pure ()
  · exact Only.emit h

theorem Only.mono {α : Type} {A B : Event → Prop} {r : Run α} (h : Only A r)
    (hAB : ∀ e, A e → B e) : Only B r :=
  fun e he => hAB e (h e he)


theorem passive_deref (p : Option Int32Ptr) : Passive (deref p) := by
  cases p <;> exact Only.nil rfl

theorem deref_trace (p : Option Int32Ptr) : (deref p).trace = [] := by
  cases p <;> rfl

theorem passive_cliBuildCheck (h : Handler) (w : World) (ns : String) :
    Passive (cliBuildCheck h w ns) := by
  unfold cliBuildCheck
  split
  · refine Only.bind (Only.emit rfl) fun _ _ => ?_
    split
    · exact Only.bind (Only.emit rfl) fun _ _ => Only.pure _
    · split
      · exact Only.bind (Only.emit rfl) fun _ _ => Only.pure _
      · exact Only.pure _
  · exact Only.pure _

theorem passive_serviceBuildCheck (h : Handler) (w : World) (ns : String) :
    Passive (serviceBuildCheck h w ns) := by
  unfold serviceBuildCheck
  split
  · refine Only.bind (Only.emit rfl) fun _ _ => ?_
    split
    · exact Only.bind (Only.emit rfl) fun _ _ => Only.pure _
    · split
      · exact Only.bind (Only.emit rfl) fun _ _ => Only.pure _
      · exact Only.pure _
  · exact Only.pure _

theorem cronEnv_passive (name : String) (envs : List EnvVar) (m : Msg)
    (h : cronEnv name envs = some m) : (Event.info m).passive = true := by
  induction envs with
  | nil => simp [cronEnv] at h
  | cons env rest ih =>
    unfold cronEnv at h
    split at h
    · injection h with h; rw [← h]; rfl
    · exact ih h

theorem passive_cronContainers (name : String) (cs : List Container) (b : Bool) :
    Passive (cronContainers name cs b) := by
  induction cs generalizing b with
  | nil => exact Only.pure _
  | cons c cs ih =>
    unfold cronContainers
    split
    · rename_i m hm
      exact Only.bind (Only.emit (cronEnv_passive _ _ _ hm)) fun _ _ => ih _
    · exact ih _

theorem passive_cronCheck (h : Handler) (d : Deployment) : Passive (cronCheck h d) := by
  unfold cronCheck
  split
  · exact passive_cronContainers _ _ _
  · exact Only.pure _

theorem passive_probePod (h : Handler) (w : World) (ns : String) (i j : Nat) (pod : Pod) :
    Passive (probePod h w ns i j pod) := by
  unfold probePod
  split
  · refine Only.bind (Only.emitIf _ rfl) fun _ _ => Only.bind (Only.emit rfl) fun _ _ => ?_
    split
    · exact Only.bind (Only.emit rfl) fun _ _ => Only.pure _
    · split
      · exact Only.nil rfl
      · exact Only.bind (Only.emitIf _ rfl) fun _ _ => Only.pure _
  · exact Only.pure _

theorem passive_servicePods (h : Handler) (w : World) (idleMinutes : Int) (i j : Nat)
    (pods : List Pod) (idle : Bool) : Passive (servicePods h w idleMinutes i j pods idle) := by
  induction pods generalizing j idle with
  | nil => exact Only.pure _
  | cons pod rest ih =>
    unfold servicePods
    split
    · refine Only.bind (Only.emitIf _ rfl) fun _ _ => ?_
      split
      · exact Only.bind (Only.emit rfl) fun _ _ => ih _ _
      · exact ih _ _
    · exact ih _ _

theorem passive_checkReplicas (h : Handler) (all : List Deployment) (d : Deployment) :
    Passive (checkReplicas h all d) := by
  unfold checkReplicas
  dsimp only
  split
  · exact Only.bind (passive_deref _) fun _ _ => Only.bind (Only.emit rfl) fun _ _ => Only.pure _
  · exact Only.bind (Only.emitIf _ rfl) fun _ _ => Only.pure _

theorem passive_serviceDeployments (h : Handler) (w : World) (ns : String) (idleMinutes : Int)
    (all : List Deployment) (i : Nat) (ds : List Deployment) (idle : Bool) :
    Passive (serviceDeployments h w ns idleMinutes all i ds idle) := by
  induction ds generalizing i idle with
  | nil => exact Only.pure _
  | cons d rest ih =>
    unfold serviceDeployments
    refine Only.bind (passive_checkReplicas _ _ _) fun c _ => ?_
    split
    · refine Only.bind (Only.emit rfl) fun _ _ => ?_
      split
      · exact Only.bind (Only.emit rfl) fun _ _ => Only.pure _
      · exact Only.bind (passive_servicePods _ _ _ _ _ _ _) fun _ _ => ih _ _
    · exact ih _ _

theorem passive_hitCheck (h : Handler) (w : World) (ns : String) (idleMinutes : Int)
    (environmentType : String) : Passive (hitCheck h w ns idleMinutes environmentType) := by
  unfold hitCheck
  split
  · refine Only.bind (Only.emit rfl) fun _ _ => Only.bind (Only.emit rfl) fun _ _ => ?_
    split
    · exact Only.bind (Only.emit rfl) fun _ _ => Only.pure _
    · refine Only.bind (Only.emitIf _ rfl) fun _ _ => Only.bind (Only.emit rfl) fun _ _ => ?_
      split
      · exact Only.bind (Only.emit rfl) fun _ _ => Only.pure _
      · exact Only.pure _
  · exact Only.bind (Only.emit rfl) fun _ _ => Only.pure _

/-! ## The build check -/

theorem cliBuildCheck_running (h : Handler) (w : World) (ns : String) (builds : List Pod)
    (hs : h.Selectors.CLI.SkipBuildCheck = false) (hb : w.builds = .ok builds)
    (hr : ∃ b ∈ builds, b.Phase = "Running") :
    cliBuildCheck h w ns = ⟨[.listBuilds ns, .info .runningBuild], some true⟩ := by
  have hany : (builds.any fun build => build.Phase == "Running") = true := by
    obtain ⟨b, hb1, hb2⟩ := hr
    exact List.any_eq_true.2 ⟨b, hb1, by simp [hb2]⟩
  unfold cliBuildCheck
  rw [hs, hb]
  simp only [Bool.not_false, if_true, hany]
  rfl

theorem serviceBuildCheck_running (h : Handler) (w : World) (ns : String) (builds : List Pod)
    (hs : h.Selectors.Service.SkipBuildCheck = false) (hb : w.builds = .ok builds)
    (hr : ∃ b ∈ builds, b.Phase = "Running") :
    serviceBuildCheck h w ns = ⟨[.listBuilds ns, .info .runningBuild], some true⟩ := by
  have hany : (builds.any fun build => build.Phase == "Running" || build.Phase == "Pending")
      = true := by
    obtain ⟨b, hb1, hb2⟩ := hr
    exact List.any_eq_true.2 ⟨b, hb1, by simp [hb2]⟩
  unfold serviceBuildCheck
  rw [hs, hb]
  simp only [Bool.not_false, if_true, hany]
  rfl

theorem kubernetesCLI_running (h : Handler) (w : World) (ns : String) (builds : List Pod)
    (hs : h.Selectors.CLI.SkipBuildCheck = false) (hb : w.builds = .ok builds)
    (hr : ∃ b ∈ builds, b.Phase = "Running") :
    kubernetesCLI h w ns = ⟨[.listBuilds ns, .info .runningBuild], some ()⟩ := by
  unfold kubernetesCLI
  rw [cliBuildCheck_running h w ns builds hs hb hr]
  rfl

theorem kubernetesServices_running (h : Handler) (w : World) (ns lagoonProject : String)
    (idleMinutes : Int) (environmentType : String) (builds : List Pod)
    (hs : h.Selectors.Service.SkipBuildCheck = false) (hb : w.builds = .ok builds)
    (hr : ∃ b ∈ builds, b.Phase = "Running") :
    kubernetesServices h w ns lagoonProject idleMinutes environmentType =
      ⟨[.listBuilds ns, .info .runningBuild], some ()⟩ := by
  unfold kubernetesServices
  rw [serviceBuildCheck_running h w ns builds hs hb hr]
  rfl

/-- C3: with build-checking enabled and the build-pod listing answering with at
least one pod in phase "Running", a pass of `kubernetesCLI` and a pass of
`kubernetesServices` each end normally without any patch (deployment or
ingress), without listing deployments, without listing pods and without
probing a pod, whatever the rest of the world answers. -/
theorem C3_running_build_aborts_pass (h : Handler) (w : World) (ns lagoonProject : String)
    (idleMinutes : Int) (environmentType : String) (builds : List Pod)
    (hb : w.builds = .ok builds) (hr : ∃ b ∈ builds, b.Phase = "Running") :
    (h.Selectors.CLI.SkipBuildCheck = false →
      (kubernetesCLI h w ns).result = some () ∧
      ∀ e ∈ (kubernetesCLI h w ns).trace,
        e.isPatch = false ∧ e.isDeploymentListing = false ∧ e.isPodListing = false ∧
          e.isProbe = false) ∧
    (h.Selectors.Service.SkipBuildCheck = false →
      (kubernetesServices h w ns lagoonProject idleMinutes environmentType).result = some () ∧
      ∀ e ∈ (kubernetesServices h w ns lagoonProject idleMinutes environmentType).trace,
        e.isPatch = false ∧ e.isDeploymentListing = false ∧ e.isPodListing = false ∧
          e.isProbe = false) := by
  constructor
  · intro hs
    rw [kubernetesCLI_running h w ns builds hs hb hr]
    refine ⟨rfl, ?_⟩
    intro e he
    simp only [List.mem_cons, List.mem_singleton, List.not_mem_nil, or_false] at he
    rcases he with rfl | rfl <;> exact ⟨rfl, rfl, rfl, rfl⟩
  · intro hs
    rw [kubernetesServices_running h w ns lagoonProject idleMinutes environmentType builds hs hb hr]
    refine ⟨rfl, ?_⟩
    intro e he
    simp only [List.mem_cons, List.mem_singleton, List.not_mem_nil, or_false] at he
    rcases he with rfl | rfl <;> exact ⟨rfl, rfl, rfl, rfl⟩

/-! ## The process count -/

theorem sliceFrom_last (t : Bytes) (init : List Nat) (c : Nat) (ht : t = init ++ [c]) :
    sliceFrom t ((t.length : Int) - 1) = some [c] := by
  subst ht
  unfold sliceFrom
  have h1 : ((init ++ [c]).length : Int) - 1 = (init.length : Int) := by
    simp
  rw [h1]
  have h2 : ¬ ((init.length : Int) < 0) := by omega
  have h3 : ¬ (((init ++ [c]).length : Int) < (init.length : Int)) := by
    simp
  simp [h2]

theorem Atoi_single (c : Nat) :
    Atoi [c] = if 48 ≤ c ∧ c ≤ 57 then (((c - 48 : Nat) : Int), none) else (0, some .ErrSyntax) := by
  unfold Atoi
  by_cases h45 : c = 45
  · subst h45; decide
  · by_cases h43 : c = 43
    · subst h43; decide
    · by_cases hd : 48 ≤ c ∧ c ≤ 57
      · simp [h45, h43, hd, atoiFast]
      · simp [h45, h43, hd, atoiFast]

theorem processCount_of_last (stdout : Bytes) (c : Nat)
    (hlast : (TrimSpace stdout).getLast? = some c) :
    processCount stdout = some (if 48 ≤ c ∧ c ≤ 57 then ((c - 48 : Nat) : Int) else 0) := by
  obtain ⟨init, ht⟩ := List.getLast?_eq_some_iff.1 hlast
  unfold processCount
  simp only [sliceFrom_last _ init c ht, Atoi_single]
  by_cases hd : 48 ≤ c ∧ c ≤ 57
  · simp only [hd, and_self, if_true]
    by_cases h0 : c = 48
    · subst h0; decide
    · have : ((c - 48 : Nat) : Int) > 0 := by omega
      simp [this]
  · simp [hd]

theorem processCount_of_empty (stdout : Bytes) (h : TrimSpace stdout = []) :
    processCount stdout = none := by
  unfold processCount
  rw [h]
  rfl

/-! ## Decimal text -/

theorem digitChar_toNat (k : Nat) (hk : k < 10) : (Nat.digitChar k).toNat = 48 + k := by
  interval_cases k <;> rfl

theorem toDigitsCore_append (f n : Nat) (ds : List Char) :
    Nat.toDigitsCore 10 f n ds = Nat.toDigitsCore 10 f n [] ++ ds := by
  induction f generalizing n ds with
  | zero => simp [Nat.toDigitsCore]
  | succ f ih =>
    simp only [Nat.toDigitsCore]
    split
    · simp
    · rw [ih (n / 10) (Nat.digitChar (n % 10) :: ds), ih (n / 10) [Nat.digitChar (n % 10)]]
      simp

theorem toDigits_eq (n : Nat) :
    ∃ init, Nat.toDigits 10 n = init ++ [Nat.digitChar (n % 10)] := by
  unfold Nat.toDigits
  simp only [Nat.toDigitsCore]
  split
  · exact ⟨[], rfl⟩
  · exact ⟨_, toDigitsCore_append _ _ _⟩

theorem toDigitsCore_digits (f n : Nat) :
    ∀ c ∈ Nat.toDigitsCore 10 f n [], 48 ≤ c.toNat ∧ c.toNat ≤ 57 := by
  induction f generalizing n with
  | zero => simp [Nat.toDigitsCore]
  | succ f ih =>
    have hd : 48 ≤ (Nat.digitChar (n % 10)).toNat ∧ (Nat.digitChar (n % 10)).toNat ≤ 57 := by
      rw [digitChar_toNat _ (Nat.mod_lt _ (by decide))]
      have := Nat.mod_lt n (show 0 < 10 by decide)
      omega
    simp only [Nat.toDigitsCore]
    split
    · intro c hc
      simp at hc
      rw [hc]; exact hd
    · rw [toDigitsCore_append]
      intro c hc
      rcases List.mem_append.1 hc with h | h
      · exact ih _ c h
      · simp at h
        rw [h]; exact hd


theorem ascii_repr (n : Nat) : ascii (Nat.repr n) = (Nat.toDigits 10 n).map Char.toNat := rfl

theorem trimSpaceStop_digit (s : Bytes) (k : Nat) (c : Nat) (hc : s.getD k 0 = c)
    (hd : 48 ≤ c ∧ c ≤ 57) : trimSpaceStop s (k + 1) = (false, k + 1) := by
  unfold trimSpaceStop
  simp only [hc]
  have h1 : ¬ (c ≥ RuneSelf) := by unfold RuneSelf; omega
  have h2 : asciiSpace c = false := by
    unfold asciiSpace
    simp
    omega
  simp [h1, h2]

theorem trimSpaceStart_digit (b : Nat) (tl : Bytes) (hd : 48 ≤ b ∧ b ≤ 57) :
    trimSpaceStart (b :: tl) = (false, b :: tl) := by
  unfold trimSpaceStart
  have h1 : ¬ (b ≥ RuneSelf) := by unfold RuneSelf; omega
  have h2 : asciiSpace b = false := by
    unfold asciiSpace
    simp
    omega
  simp [h1, h2]

theorem TrimSpace_of_start (s : Bytes) (stop : Nat) (h1 : trimSpaceStart s = (false, s))
    (h2 : trimSpaceStop s s.length = (false, stop)) : TrimSpace s = s.take stop := by
  unfold TrimSpace
  rw [h1]
  simp only []
  rw [h2]

theorem getD_append_at (init tl : Bytes) (c : Nat) :
    (init ++ c :: tl).getD init.length 0 = c := by
  induction init with
  | nil => rfl
  | cons b init ih => simpa using ih

theorem take_append_at (init tl : Bytes) (c : Nat) :
    (init ++ c :: tl).take (init.length + 1) = init ++ [c] := by
  induction init with
  | nil => rfl
  | cons b init ih => simpa using ih

theorem TrimSpace_digits (init : Bytes) (c : Nat) (hall : ∀ b ∈ init ++ [c], 48 ≤ b ∧ b ≤ 57) :
    TrimSpace (init ++ [c]) = init ++ [c] ∧ TrimSpace (init ++ [c] ++ [10]) = init ++ [c] := by
  have hc : 48 ≤ c ∧ c ≤ 57 := hall c (by simp)
  have hstart : ∀ tl : Bytes, trimSpaceStart (init ++ c :: tl) = (false, init ++ c :: tl) := by
    intro tl
    cases init with
    | nil => exact trimSpaceStart_digit c _ hc
    | cons b init' => exact trimSpaceStart_digit b _ (hall b (by simp))
  have e2 : init ++ [c] ++ [10] = init ++ c :: [10] := by simp
  constructor
  · rw [TrimSpace_of_start _ (init.length + 1) (hstart [])]
    · exact take_append_at init [] c
    · have hlen : (init ++ [c]).length = init.length + 1 := by simp
      rw [hlen]
      exact trimSpaceStop_digit _ _ c (getD_append_at init [] c) hc
  · rw [e2, TrimSpace_of_start _ (init.length + 1) (hstart [10])]
    · exact take_append_at init [10] c
    · have hlen : (init ++ c :: [10]).length = init.length + 1 + 1 := by simp
      rw [hlen]
      have h10 : (init ++ c :: [10]).getD (init.length + 1) 0 = 10 := by
        have := getD_append_at (init ++ [c]) [] 10
        simpa using this
      have hnl : trimSpaceStop (init ++ c :: [10]) (init.length + 1 + 1) =
          trimSpaceStop (init ++ c :: [10]) (init.length + 1) := by
        conv_lhs => unfold trimSpaceStop
        simp only [h10]
        rfl
      rw [hnl]
      exact trimSpaceStop_digit _ _ c (getD_append_at init [10] c) hc

theorem processCount_decimal (n : Nat) :
    processCount (ascii (Nat.repr n)) = some ((n % 10 : Nat) : Int) ∧
    processCount (ascii (Nat.repr n) ++ [10]) = some ((n % 10 : Nat) : Int) := by
  obtain ⟨init, hinit⟩ := toDigits_eq n
  have hall : ∀ b ∈ init.map Char.toNat ++ [(Nat.digitChar (n % 10)).toNat], 48 ≤ b ∧ b ≤ 57 := by
    intro b hb
    have hb' : b ∈ (Nat.toDigits 10 n).map Char.toNat := by
      rw [hinit]; simpa using hb
    obtain ⟨ch, hch, rfl⟩ := List.mem_map.1 hb'
    exact toDigitsCore_digits _ _ ch hch
  have hascii : ascii (Nat.repr n) = init.map Char.toNat ++ [(Nat.digitChar (n % 10)).toNat] := by
    rw [ascii_repr, hinit]; simp
  have hlt : n % 10 < 10 := Nat.mod_lt _ (by decide)
  obtain ⟨h1, h2⟩ := TrimSpace_digits _ _ hall
  have hval : (if 48 ≤ (Nat.digitChar (n % 10)).toNat ∧ (Nat.digitChar (n % 10)).toNat ≤ 57
      then (((Nat.digitChar (n % 10)).toNat - 48 : Nat) : Int) else 0) = ((n % 10 : Nat) : Int) := by
    rw [digitChar_toNat _ hlt]
    have : 48 ≤ 48 + n % 10 ∧ 48 + n % 10 ≤ 57 := by omega
    simp [this]
  constructor
  · rw [← hval]
    apply processCount_of_last
    rw [hascii, h1]
    simp
  · rw [← hval]
    apply processCount_of_last
    rw [hascii, h2]
    simp

theorem toDigitsCore_ne_nil (f n : Nat) : Nat.toDigitsCore 10 (f + 1) n [] ≠ [] := by
  simp only [Nat.toDigitsCore]
  split
  · simp
  · rw [toDigitsCore_append]; simp

theorem toDigits_pos_ne_zero (n : Nat) (hn : 1 ≤ n) : Nat.toDigits 10 n ≠ ['0'] := by
  unfold Nat.toDigits
  simp only [Nat.toDigitsCore]
  split
  · rename_i h0
    have hlt : n < 10 := by omega
    have hmod : n % 10 = n := Nat.mod_eq_of_lt hlt
    rw [hmod]
    intro h
    have h1 : (Nat.digitChar n).toNat = ('0' : Char).toNat := by
      injection h with h _
      rw [h]
    rw [digitChar_toNat n hlt] at h1
    have : ('0' : Char).toNat = 48 := rfl
    omega
  · rename_i h0
    rw [toDigitsCore_append]
    have hn10 : 10 ≤ n := by
      by_contra hlt
      exact h0 (Nat.div_eq_of_lt (by omega))
    obtain ⟨f, hf⟩ : ∃ f, n = f + 1 := ⟨n - 1, by omega⟩
    intro h
    have hlen := congrArg List.length h
    have hne := toDigitsCore_ne_nil f (n / 10)
    rw [← hf] at hne
    have : 0 < (Nat.toDigitsCore 10 n (n / 10) []).length := List.length_pos.2 hne
    rw [List.length_append, List.length_singleton, List.length_singleton] at hlen
    omega

theorem FormatInt_ofNat (n : Nat) : FormatInt (n : Int) = String.mk (Nat.toDigits 10 n) := rfl

theorem FormatInt_negSucc (n : Nat) :
    FormatInt (Int.negSucc n) = String.mk ('-' :: Nat.toDigits 10 (n + 1)) := rfl

theorem FormatInt_pos_ne (n m : Int) (hn : 1 ≤ n) (hm : m ≤ 0) : FormatInt n ≠ FormatInt m := by
  obtain ⟨k, rfl⟩ : ∃ k : Nat, n = (k : Int) := ⟨n.toNat, by omega⟩
  have hk : 1 ≤ k := by omega
  rw [FormatInt_ofNat]
  cases m with
  | ofNat j =>
    have hj : j = 0 := by
      have : ((j : Nat) : Int) ≤ 0 := hm
      omega
    subst hj
    intro h
    have h' : Nat.toDigits 10 k = Nat.toDigits 10 0 := by
      have := congrArg String.data h
      exact this
    exact toDigits_pos_ne_zero k hk h'
  | negSucc j =>
    rw [FormatInt_negSucc]
    intro h
    have h' : Nat.toDigits 10 k = '-' :: Nat.toDigits 10 (j + 1) := congrArg String.data h
    have hmem : '-' ∈ Nat.toDigits 10 k := by rw [h']; simp
    have := toDigitsCore_digits _ _ '-' hmem
    have h45 : ('-' : Char).toNat = 45 := rfl
    omega

theorem FormatInt_pos_ne_zero (n : Int) (hn : 1 ≤ n) : FormatInt n ≠ "0" :=
  FormatInt_pos_ne n 0 hn (le_refl 0)

/-! ## Blank probe output -/

theorem trimSpaceStart_blank (s : Bytes) (hs : ∀ c ∈ s, asciiSpace c = true) :
    trimSpaceStart s = (false, []) := by
  induction s with
  | nil => rfl
  | cons c cs ih =>
    have hc : asciiSpace c = true := hs c (by simp)
    have hlt : ¬ (c ≥ RuneSelf) := by
      unfold asciiSpace at hc
      unfold RuneSelf
      simp at hc
      omega
    unfold trimSpaceStart
    simp only [hlt, if_false, hc, if_true]
    exact ih fun c' hc' => hs c' (by simp [hc'])

/-- A probe output that is empty or made of ASCII white space only makes the
derivation of the process count panic. -/
theorem processCount_blank (stdout : Bytes) (hs : ∀ c ∈ stdout, asciiSpace c = true) :
    processCount stdout = none := by
  apply processCount_of_empty
  unfold TrimSpace
  rw [trimSpaceStart_blank stdout hs]
  rfl
/-! ## `idleDeployments` -/

theorem idleReplicas_eq (r : Int) : (if r > 0 then r else 1) = max 1 r := by
  by_cases h : r > 0
  · rw [if_pos h, max_eq_right (by omega)]
  · rw [if_neg h, max_eq_left (by omega)]

theorem idleDeployment_wet (h : Handler) (w : World) (i : Nat) (d : Deployment) (p : Int32Ptr)
    (hdry : h.DryRun = false) (hp : d.Replicas = some p) :
    ∃ m, idleDeployment h w i d =
      ⟨[.patchDeployment d.Name (idlePatch (w.now i) (FormatInt (max 1 p.val))), .info m],
        some ()⟩ ∧ (Event.info m).passive = true := by
  unfold idleDeployment
  rw [hdry, hp]
  simp only [Bool.not_false, if_true, idleReplicas_eq]
  cases hw : w.patchIdle i with
  | none => exact ⟨.scaledTo0 d.Name, by simp [deref, bind, Run.bind, pure, emit, hw], rfl⟩
  | some err => exact ⟨.errScaling d.Name, by simp [deref, bind, Run.bind, pure, emit, hw], rfl⟩

theorem idleDeployment_nil (h : Handler) (w : World) (i : Nat) (d : Deployment)
    (hdry : h.DryRun = false) (hp : d.Replicas = none) :
    idleDeployment h w i d = ⟨[], none⟩ := by
  unfold idleDeployment
  rw [hdry, hp]
  rfl

theorem idleDeployment_dry (h : Handler) (w : World) (i : Nat) (d : Deployment)
    (hdry : h.DryRun = true) :
    idleDeployment h w i d = ⟨[.info (.wouldBeScaled d.Name)], some ()⟩ := by
  unfold idleDeployment
  rw [hdry]
  rfl

theorem idleDeploymentsFrom_cons (h : Handler) (w : World) (i : Nat) (d : Deployment)
    (rest : List Deployment) :
    idleDeploymentsFrom h w i (d :: rest) =
      (idleDeployment h w i d >>= fun _ => idleDeploymentsFrom h w (i + 1) rest) := rfl

/-- Every patch of `idleDeployments` is the idle patch of a listed deployment. -/
theorem mem_idleDeploymentsFrom (h : Handler) (w : World) (hdry : h.DryRun = false)
    (ds : List Deployment) (i : Nat) (name : String) (patch : MergePatch)
    (hmem : Event.patchDeployment name patch ∈ (idleDeploymentsFrom h w i ds).trace) :
    ∃ k d p, ds[k]? = some d ∧ d.Name = name ∧ d.Replicas = some p ∧
      patch = idlePatch (w.now (i + k)) (FormatInt (max 1 p.val)) := by
  induction ds generalizing i with
  | nil => simp [idleDeploymentsFrom] at hmem
  | cons d rest ih =>
    rw [idleDeploymentsFrom_cons] at hmem
    cases hp : d.Replicas with
    | none =>
      rw [idleDeployment_nil h w i d hdry hp] at hmem
      simp [bind_trace] at hmem
    | some p =>
      obtain ⟨m, hm, _⟩ := idleDeployment_wet h w i d p hdry hp
      rw [hm] at hmem
      simp only [bind_trace, List.mem_append, List.mem_cons, List.mem_singleton,
        List.not_mem_nil, or_false] at hmem
      rcases hmem with (h1 | h1) | h1
      · injection h1 with hn hpatch
        exact ⟨0, d, p, by simp, hn.symm, hp, by simpa using hpatch⟩
      · cases h1
      · obtain ⟨k, d', p', hk, hn, hp', hpatch⟩ := ih (i + 1) h1
        refine ⟨k + 1, d', p', by simpa using hk, hn, hp', ?_⟩
        rw [hpatch]
        congr 2
        omega

/-- A deployment reached by the loop of `idleDeployments` is patched. -/
theorem idleDeploymentsFrom_patches (h : Handler) (w : World) (hdry : h.DryRun = false)
    (ds : List Deployment) (i k : Nat) (d : Deployment) (p : Int32Ptr)
    (hk : ds[k]? = some d) (hp : d.Replicas = some p)
    (hbefore : ∀ d' ∈ ds.take k, d'.Replicas ≠ none) :
    Event.patchDeployment d.Name (idlePatch (w.now (i + k)) (FormatInt (max 1 p.val))) ∈
      (idleDeploymentsFrom h w i ds).trace := by
  induction ds generalizing i k with
  | nil => simp at hk
  | cons d0 rest ih =>
    rw [idleDeploymentsFrom_cons]
    cases k with
    | zero =>
      simp at hk
      subst hk
      obtain ⟨m, hm, _⟩ := idleDeployment_wet h w i d0 p hdry hp
      rw [hm]
      simp [bind_trace]
    | succ k =>
      have h0 : d0.Replicas ≠ none := hbefore d0 (by simp)
      obtain ⟨p0, hp0⟩ := Option.ne_none_iff_exists'.1 h0
      obtain ⟨m, hm, _⟩ := idleDeployment_wet h w i d0 p0 hdry hp0
      rw [hm]
      have := ih (i + 1) k (by simpa using hk) (fun d' hd' => hbefore d' (by simp [hd']))
      simp only [bind_trace, List.mem_append]
      right
      have e : i + (k + 1) = i + 1 + k := by omega
      rw [e]
      exact this

/-- With no nil replica count, `idleDeployments` patches every deployment once,
in listing order, and ends normally. -/
theorem idleDeploymentsFrom_all (h : Handler) (w : World) (hdry : h.DryRun = false)
    (ds : List Deployment) (i : Nat) (hall : ∀ d ∈ ds, d.Replicas ≠ none) :
    patches (idleDeploymentsFrom h w i ds).trace = ds.map (fun d => Target.deployment d.Name) ∧
      (idleDeploymentsFrom h w i ds).result = some () := by
  induction ds generalizing i with
  | nil => exact ⟨rfl, rfl⟩
  | cons d rest ih =>
    rw [idleDeploymentsFrom_cons]
    obtain ⟨p, hp⟩ := Option.ne_none_iff_exists'.1 (hall d (by simp))
    obtain ⟨m, hm, _⟩ := idleDeployment_wet h w i d p hdry hp
    obtain ⟨ih1, ih2⟩ := ih (i + 1) (fun d' hd' => hall d' (by simp [hd']))
    rw [hm]
    constructor
    · simp only [bind_trace, patches, List.filterMap_append, List.map_cons]
      have hmp : (Event.info m).patched = none := rfl
      simp only [List.filterMap_cons, Event.patched, hmp, List.filterMap_nil]
      simpa [patches] using ih1
    · simp [bind_result, ih2]
/-! ## `patchIngress` -/

theorem patchIngressFrom_dry (h : Handler) (w : World) (hdry : h.DryRun = true) (k : Nat)
    (l : List Ingress) :
    patchIngressFrom h w k l =
      ⟨l.map (fun ingress => Event.info (.ingressWouldBePatched ingress.Name)), some none⟩ := by
  induction l generalizing k with
  | nil => rfl
  | cons ingress rest ih =>
    unfold patchIngressFrom
    rw [hdry]
    simp only [Bool.not_true, Bool.false_eq_true, if_false]
    rw [ih (k + 1)]
    rfl

/-- What the loop of `patchIngress` does without dry-run: it patches the
ingresses in order up to the first failure, and never panics. -/
theorem patchIngressFrom_wet (h : Handler) (w : World) (hdry : h.DryRun = false) (k : Nat)
    (l : List Ingress) :
    ∃ n, n ≤ l.length ∧
      patches (patchIngressFrom h w k l).trace = (l.take n).map (fun g => Target.ingress g.Name) ∧
      ((patchIngressFrom h w k l).result = some none → n = l.length) ∧
      (patchIngressFrom h w k l).result ≠ none ∧
      Only (fun e => e.isDeploymentPatch = false ∧ e ≠ .info .willBeIdled ∧ e.intended = none)
        (patchIngressFrom h w k l) := by
  induction l generalizing k with
  | nil =>
    refine ⟨0, le_refl _, rfl, fun _ => rfl, by simp [patchIngressFrom], Only.nil rfl⟩
  | cons g rest ih =>
    unfold patchIngressFrom
    rw [hdry]
    simp only [Bool.not_false, if_true]
    cases hw : w.patchIngress k with
    | some err =>
      refine ⟨1, by simp, ?_, ?_, ?_, ?_⟩
      · simp [patches, Event.patched]
      · simp
      · simp
      · intro e he
        simp at he
        rcases he with rfl | rfl <;> simp [Event.isDeploymentPatch, Event.intended]
    | none =>
      obtain ⟨n, hn, hp, hr, hne, ho⟩ := ih (k + 1)
      refine ⟨n + 1, by simp [hn], ?_, ?_, ?_, ?_⟩
      · simp only [emit_bind_trace, patches, List.filterMap_cons, Event.patched, List.take_succ_cons,
          List.map_cons]
        simpa [patches] using hp
      · intro hres
        simp only [emit_bind_result] at hres
        simp [hr hres]
      · simpa using hne
      · intro e he
        simp only [emit_bind_trace, List.mem_cons] at he
        rcases he with rfl | rfl | he
        · simp [Event.isDeploymentPatch, Event.intended]
        · simp [Event.isDeploymentPatch, Event.intended]
        · exact ho e he

/-- A failing patch of a listed ingress makes the loop return an error. -/
theorem patchIngressFrom_fails (h : Handler) (w : World) (hdry : h.DryRun = false) (k : Nat)
    (l : List Ingress) (hfail : ∃ j, j < l.length ∧ w.patchIngress (k + j) ≠ none) :
    ∃ err, (patchIngressFrom h w k l).result = some (some err) := by
  induction l generalizing k with
  | nil =>
    obtain ⟨j, hj, _⟩ := hfail
    simp at hj
  | cons g rest ih =>
    unfold patchIngressFrom
    rw [hdry]
    simp only [Bool.not_false, if_true]
    cases hw : w.patchIngress k with
    | some err => exact ⟨.errorf ("Error patching ingress " ++ g.Name), by simp⟩
    | none =>
      obtain ⟨j, hj, hf⟩ := hfail
      cases j with
      | zero => simp [hw] at hf
      | succ j =>
        obtain ⟨err, herr⟩ := ih (k + 1) ⟨j, by simpa using hj, by
          have e : k + 1 + j = k + (j + 1) := by omega
          rw [e]; exact hf⟩
        exact ⟨err, by simpa using herr⟩

/-- The first listed ingress is patched. -/
theorem patchIngressFrom_head (h : Handler) (w : World) (hdry : h.DryRun = false) (k : Nat)
    (g : Ingress) (rest : List Ingress) :
    Event.patchIngress g.Name ingressPatch ∈ (patchIngressFrom h w k (g :: rest)).trace := by
  unfold patchIngressFrom
  rw [hdry]
  simp
/-! ## The service pass -/

theorem passive_facts (e : Event) (h : e.passive = true) :
    e.isPatch = false ∧ e.isDeploymentPatch = false ∧ e.isIngressPatch = false ∧
      e ≠ .info .willBeIdled ∧ e.patched = none ∧ e.intended = none := by
  cases e with
  | info m =>
    cases m <;> first | (refine ⟨rfl, rfl, rfl, ?_, rfl, rfl⟩; intro hc; cases hc; done) | cases h
  | patchDeployment n p => cases h
  | patchIngress n p => cases h
  | _ => exact ⟨rfl, rfl, rfl, by simp, rfl, rfl⟩

/-- The events of a service pass are passive up to the actuation. -/
theorem kubernetesServices_only (A : Event → Prop) (hpass : ∀ e, e.passive = true → A e)
    (h : Handler) (w : World) (ns lagoonProject : String) (idleMinutes : Int)
    (environmentType : String)
    (hact : ∀ ds, w.deployments = .ok ds →
      (serviceDeployments h w ns idleMinutes ds 0 ds false).result = some true →
      Only A (actuate h w ns idleMinutes environmentType ds)) :
    Only A (kubernetesServices h w ns lagoonProject idleMinutes environmentType) := by
  unfold kubernetesServices
  refine Only.bind ((passive_serviceBuildCheck h w ns).mono hpass) fun b _ => ?_
  split
  · refine Only.bind (Only.emit (hpass _ rfl)) fun _ _ => ?_
    split
    · exact Only.emit (hpass _ rfl)
    · rename_i ds hds
      refine Only.bind ((passive_serviceDeployments h w ns idleMinutes ds 0 ds false).mono hpass)
        fun idle hidle => ?_
      split
      · rename_i ht
        subst ht
        exact hact ds hds hidle
      · exact Only.pure _
  · exact Only.pure _

/-- The events of the actuation, from those of its two phases. -/
theorem actuate_only (A : Event → Prop) (hpass : ∀ e, e.passive = true → A e)
    (h : Handler) (w : World) (ns : String) (idleMinutes : Int) (environmentType : String)
    (ds : List Deployment)
    (hing : (hitCheck h w ns idleMinutes environmentType).result = some true →
      Only A (patchIngress h w ns))
    (hidle : (hitCheck h w ns idleMinutes environmentType).result = some true →
      (patchIngress h w ns).result = some none →
      A (.info .willBeIdled) ∧ Only A (idleDeployments h w ds)) :
    Only A (actuate h w ns idleMinutes environmentType ds) := by
  unfold actuate
  refine Only.bind ((passive_hitCheck h w ns idleMinutes environmentType).mono hpass)
    fun c hc => ?_
  split
  · rename_i ht
    subst ht
    refine Only.bind (hing hc) fun r hr => ?_
    split
    · exact Only.emit (hpass _ rfl)
    · exact Only.bind (Only.emit (hidle hc hr).1) fun _ _ => (hidle hc hr).2
  · exact Only.pure _

theorem patchIngress_fails (h : Handler) (w : World) (ns : String)
    (hskip : h.Selectors.Service.SkipIngressPatch = false) (hdry : h.DryRun = false)
    (hfail : (∃ err, w.ingresses = .error err) ∨
      ∃ l j, w.ingresses = .ok l ∧ j < l.length ∧ w.patchIngress j ≠ none) :
    ∃ err, (patchIngress h w ns).result = some (some err) := by
  unfold patchIngress
  rw [hskip]
  simp only [Bool.not_false, if_true]
  rcases hfail with ⟨err, he⟩ | ⟨l, j, hl, hj, hf⟩
  · rw [he]
    exact ⟨.errorf "Error getting ingress", by simp⟩
  · rw [hl]
    obtain ⟨err, herr⟩ := patchIngressFrom_fails h w hdry 0 l ⟨j, hj, by simpa using hf⟩
    exact ⟨err, by simpa using herr⟩

/-- The loop of `patchIngress` never panics. -/
theorem patchIngress_result (h : Handler) (w : World) (ns : String) :
    (patchIngress h w ns).result ≠ none := by
  unfold patchIngress
  split
  · simp only [emit_bind_result]
    split
    · simp
    · rename_i l _
      cases hd : h.DryRun with
      | true => rw [patchIngressFrom_dry h w hd]; simp
      | false => exact (patchIngressFrom_wet h w hd 0 l).choose_spec.2.2.2.1
  · simp

/-- The ingress phase issues no deployment patch and does not announce the idling. -/
theorem patchIngress_only (h : Handler) (w : World) (ns : String) :
    Only (fun e => e.isDeploymentPatch = false ∧ e ≠ .info .willBeIdled)
      (patchIngress h w ns) := by
  unfold patchIngress
  split
  · refine Only.bind (Only.emit ⟨rfl, by simp⟩) fun _ _ => ?_
    split
    · exact Only.bind (Only.emit ⟨rfl, by simp⟩) fun _ _ => Only.pure _
    · rename_i l _
      cases hd : h.DryRun with
      | true =>
        rw [patchIngressFrom_dry h w hd]
        intro e he
        simp only [List.mem_map] at he
        obtain ⟨g, _, rfl⟩ := he
        exact ⟨rfl, by simp⟩
      | false =>
        exact (patchIngressFrom_wet h w hd 0 l).choose_spec.2.2.2.2.mono fun e he => ⟨he.1, he.2.1⟩
  · exact Only.pure _

/-- C1: in a service pass with ingress patching enabled and dry-run off, when
the ingress listing fails or the patch of some listed ingress fails,
`patchIngress` returns an error, and the pass issues no deployment patch and
never reaches the call of `idleDeployments` (the line "Environment will be
idled" that precedes it is not logged), whatever the deployments, pods, metrics
and other ingresses are. -/
theorem C1_ingress_failure_blocks_scaling (h : Handler) (w : World) (ns lagoonProject : String)
    (idleMinutes : Int) (environmentType : String)
    (hskip : h.Selectors.Service.SkipIngressPatch = false) (hdry : h.DryRun = false)
    (hfail : (∃ err, w.ingresses = .error err) ∨
      ∃ l j, w.ingresses = .ok l ∧ j < l.length ∧ w.patchIngress j ≠ none) :
    (∃ err, (patchIngress h w ns).result = some (some err)) ∧
    (∀ e ∈ (kubernetesServices h w ns lagoonProject idleMinutes environmentType).trace,
      e.isDeploymentPatch = false ∧ e ≠ .info .willBeIdled) ∧
    ∀ ds, ∀ e ∈ (actuate h w ns idleMinutes environmentType ds).trace,
      e.isDeploymentPatch = false ∧ e ≠ .info .willBeIdled := by
  have hres := patchIngress_fails h w ns hskip hdry hfail
  have hpass : ∀ e : Event, e.passive = true →
      e.isDeploymentPatch = false ∧ e ≠ .info .willBeIdled :=
    fun e he => ⟨(passive_facts e he).2.1, (passive_facts e he).2.2.2.1⟩
  have hact : ∀ ds, Only (fun e => e.isDeploymentPatch = false ∧ e ≠ .info .willBeIdled)
      (actuate h w ns idleMinutes environmentType ds) := by
    intro ds
    refine actuate_only _ hpass h w ns idleMinutes environmentType ds
      (fun _ => patchIngress_only h w ns) (fun _ hnone => ?_)
    obtain ⟨err, herr⟩ := hres
    rw [herr] at hnone
    cases hnone
  exact ⟨hres,
    kubernetesServices_only _ hpass h w ns lagoonProject idleMinutes environmentType
      (fun ds _ _ => hact ds),
    hact⟩
/-! ## The hit check -/

theorem wrapInt_of_range (x : Int) (h1 : -(2 ^ 63) ≤ x) (h2 : x < 2 ^ 63) : wrapInt x = x := by
  unfold wrapInt
  omega

theorem numHits_foldl (samples : List Bytes) (acc : Int) (hacc : 0 ≤ acc)
    (hpos : ∀ v ∈ samples, 0 ≤ (Atoi v).1)
    (hsum : acc + (samples.map fun v => (Atoi v).1).sum < 2 ^ 63) :
    samples.foldl (fun n value => wrapInt (n + (Atoi value).1)) acc =
      acc + (samples.map fun v => (Atoi v).1).sum := by
  induction samples generalizing acc with
  | nil => simp
  | cons v rest ih =>
    have hv : 0 ≤ (Atoi v).1 := hpos v (by simp)
    have hrest : 0 ≤ (rest.map fun v => (Atoi v).1).sum :=
      List.sum_nonneg (by
        intro x hx
        obtain ⟨u, hu, rfl⟩ := List.mem_map.1 hx
        exact hpos u (by simp [hu]))
    simp only [List.map_cons, List.sum_cons] at hsum
    simp only [List.foldl_cons, List.map_cons, List.sum_cons]
    rw [wrapInt_of_range _ (by omega) (by omega)]
    rw [ih _ (by omega) (fun u hu => hpos u (by simp [hu])) (by omega)]
    omega

/-- Without overflow `numHits` is the sum of the integer values of the samples. -/
theorem numHits_eq_sum (samples : List Bytes) (hpos : ∀ v ∈ samples, 0 ≤ (Atoi v).1)
    (hsum : (samples.map fun v => (Atoi v).1).sum < 2 ^ 63) :
    numHits (.vector samples) = (samples.map fun v => (Atoi v).1).sum := by
  show samples.foldl (fun n value => wrapInt (n + (Atoi value).1)) 0 = _
  rw [numHits_foldl samples 0 (le_refl 0) hpos (by simpa using hsum)]
  simp

theorem hitCheck_result (h : Handler) (w : World) (ns : String) (idleMinutes : Int)
    (environmentType : String) (hhit : h.Selectors.Service.SkipHitCheck = false) :
    (hitCheck h w ns idleMinutes environmentType).result =
      match w.query with
      | .error _ => some false
      | .ok resp => some (decide (numHits resp.result = 0)) := by
  unfold hitCheck
  rw [hhit]
  simp only [Bool.not_false, if_true, emit_bind_result]
  cases hq : w.query with
  | error err => simp
  | ok resp =>
    simp only [emitIf_bind_result, emit_bind_result]
    by_cases h0 : numHits resp.result = 0
    · simp [h0]
    · simp [h0]

theorem hitCheck_result_ne_none (h : Handler) (w : World) (ns : String) (idleMinutes : Int)
    (environmentType : String) :
    (hitCheck h w ns idleMinutes environmentType).result ≠ none := by
  cases hhit : h.Selectors.Service.SkipHitCheck with
  | false =>
    rw [hitCheck_result h w ns idleMinutes environmentType hhit]
    split <;> simp
  | true =>
    unfold hitCheck
    rw [hhit]
    simp

/-- Without a green light of the hit check the actuation does nothing. -/
theorem actuate_blocked (h : Handler) (w : World) (ns : String) (idleMinutes : Int)
    (environmentType : String) (ds : List Deployment)
    (hblock : (hitCheck h w ns idleMinutes environmentType).result = some false) :
    Passive (actuate h w ns idleMinutes environmentType ds) := by
  unfold actuate
  refine Only.bind (passive_hitCheck h w ns idleMinutes environmentType) fun c hc => ?_
  rw [hblock] at hc
  injection hc with hc
  subst hc
  exact Only.pure _

theorem checkReplicas_result (h : Handler) (all : List Deployment) (d : Deployment)
    (hres : (checkReplicas h all d).result ≠ none) : d.Replicas ≠ none := by
  intro hnil
  apply hres
  unfold checkReplicas
  rw [hnil]
  rfl

/-- When the pod-age check sets the idle flag, the first listed deployment has
a replica count. -/
theorem serviceDeployments_idle (h : Handler) (w : World) (ns : String) (idleMinutes : Int)
    (all ds : List Deployment) (i : Nat)
    (hidle : (serviceDeployments h w ns idleMinutes all i ds false).result = some true) :
    ∃ d rest p, ds = d :: rest ∧ d.Replicas = some p := by
  cases ds with
  | nil => simp [serviceDeployments] at hidle
  | cons d rest =>
    have hne : (checkReplicas h all d).result ≠ none := by
      intro hn
      unfold serviceDeployments at hidle
      rw [bind_result, hn] at hidle
      simp at hidle
    obtain ⟨p, hp⟩ := Option.ne_none_iff_exists'.1 (checkReplicas_result h all d hne)
    exact ⟨d, rest, p, rfl, hp⟩

/-- With the green light of the hit check, dry-run off and the ingress listing
answering (or skipped), the actuation issues a patch. -/
theorem actuate_patches (h : Handler) (w : World) (ns : String) (idleMinutes : Int)
    (environmentType : String) (d : Deployment) (rest : List Deployment) (p : Int32Ptr)
    (hp : d.Replicas = some p)
    (hgo : (hitCheck h w ns idleMinutes environmentType).result = some true)
    (hdry : h.DryRun = false)
    (hing : h.Selectors.Service.SkipIngressPatch = true ∨ ∃ l, w.ingresses = .ok l) :
    ∃ e ∈ (actuate h w ns idleMinutes environmentType (d :: rest)).trace, e.isPatch = true := by
  have hidle : ∃ e ∈ (idleDeployments h w (d :: rest)).trace, e.isPatch = true := by
    have hmem := idleDeploymentsFrom_patches h w hdry (d :: rest) 0 0 d p (by simp) hp (by simp)
    exact ⟨_, hmem, rfl⟩
  have hact : ∀ r, (patchIngress h w ns).result = some r →
      (actuate h w ns idleMinutes environmentType (d :: rest)).trace =
        (hitCheck h w ns idleMinutes environmentType).trace ++ ((patchIngress h w ns).trace ++
          match r with
          | some _ => [Event.info .notIdled]
          | none => Event.info .willBeIdled :: (idleDeployments h w (d :: rest)).trace) := by
    intro r hr
    unfold actuate
    rw [bind_trace, hgo]
    simp only [if_true]
    rw [bind_trace, hr]
    cases r <;> simp
  obtain ⟨r, hr⟩ := Option.ne_none_iff_exists'.1 (patchIngress_result h w ns)
  rw [hact r hr]
  by_cases hhead : ∃ e ∈ (patchIngress h w ns).trace, e.isPatch = true
  · obtain ⟨e, he, hpe⟩ := hhead
    exact ⟨e, by simp [he], hpe⟩
  · have hnone : r = none := by
      rcases hing with hskip | ⟨l, hl⟩
      · unfold patchIngress at hr
        rw [hskip] at hr
        simp at hr
        exact hr.symm
      · cases l with
        | nil =>
          unfold patchIngress at hr
          rw [hl] at hr
          by_cases hs : h.Selectors.Service.SkipIngressPatch = true
          · rw [hs] at hr; simp at hr; exact hr.symm
          · simp [hs, patchIngressFrom] at hr; exact hr.symm
        | cons g gs =>
          by_cases hs : h.Selectors.Service.SkipIngressPatch = true
          · unfold patchIngress at hr
            rw [hs] at hr; simp at hr; exact hr.symm
          · exfalso
            apply hhead
            refine ⟨.patchIngress g.Name ingressPatch, ?_, rfl⟩
            have hs' : h.Selectors.Service.SkipIngressPatch = false := by
              cases hb : h.Selectors.Service.SkipIngressPatch with
              | false => rfl
              | true => exact absurd hb hs
            unfold patchIngress
            simp only [hs', Bool.not_false, if_true, hl, emit_bind_trace]
            exact List.mem_cons_of_mem _ (patchIngressFrom_head h w hdry 0 g gs)
    subst hnone
    obtain ⟨e, he, hpe⟩ := hidle
    exact ⟨e, by simp [he], hpe⟩

theorem kubernetesServices_trace (h : Handler) (w : World) (ns lagoonProject : String)
    (idleMinutes : Int) (environmentType : String) (ds : List Deployment)
    (hb : (serviceBuildCheck h w ns).result = some false) (hd : w.deployments = .ok ds)
    (hidle : (serviceDeployments h w ns idleMinutes ds 0 ds false).result = some true) :
    (kubernetesServices h w ns lagoonProject idleMinutes environmentType).trace =
      (serviceBuildCheck h w ns).trace ++ Event.listDeployments ns ::
        ((serviceDeployments h w ns idleMinutes ds 0 ds false).trace ++
          (actuate h w ns idleMinutes environmentType ds).trace) := by
  unfold kubernetesServices
  simp only [bind_trace, hb, Bool.not_false, if_true, emit_trace, emit_result, hd, hidle]
  simp
/-- C4 (amended): in `kubernetesServices`, once the pod-age check has set the
idle flag and with hit-checking not skipped, a query error yields no patch and
a non-zero `numHits` yields no patch; with dry-run off and the ingress listing
answering (or ingress patching skipped), some ingress or deployment patch is
issued if and only if the query succeeds and `numHits` is zero.  `numHits` is
the 64-bit sum of `strconv.Atoi` of the text of every sample: zero for the two
samples "0" and "0", five for the sample "5", and the plain sum of the values
when they are non-negative and the sum fits. -/
theorem C4_traffic_gating (h : Handler) (w : World) (ns lagoonProject : String)
    (idleMinutes : Int) (environmentType : String) (ds : List Deployment)
    (hb : (serviceBuildCheck h w ns).result = some false) (hd : w.deployments = .ok ds)
    (hidle : (serviceDeployments h w ns idleMinutes ds 0 ds false).result = some true)
    (hhit : h.Selectors.Service.SkipHitCheck = false) :
    ((∃ err, w.query = .error err) →
      ∀ e ∈ (kubernetesServices h w ns lagoonProject idleMinutes environmentType).trace,
        e.isPatch = false) ∧
    (∀ resp, w.query = .ok resp → numHits resp.result ≠ 0 →
      ∀ e ∈ (kubernetesServices h w ns lagoonProject idleMinutes environmentType).trace,
        e.isPatch = false) ∧
    (h.DryRun = false →
      (h.Selectors.Service.SkipIngressPatch = true ∨ ∃ l, w.ingresses = .ok l) →
      ((∃ e ∈ (kubernetesServices h w ns lagoonProject idleMinutes environmentType).trace,
          e.isPatch = true) ↔
        ∃ resp, w.query = .ok resp ∧ numHits resp.result = 0)) ∧
    numHits (.vector [ascii "0", ascii "0"]) = 0 ∧ numHits (.vector [ascii "5"]) = 5 ∧
    ∀ samples : List Bytes, (∀ v ∈ samples, 0 ≤ (Atoi v).1) →
      (samples.map fun v => (Atoi v).1).sum < 2 ^ 63 →
      numHits (.vector samples) = (samples.map fun v => (Atoi v).1).sum := by
  have hres := hitCheck_result h w ns idleMinutes environmentType hhit
  have hquiet : (hitCheck h w ns idleMinutes environmentType).result = some false →
      ∀ e ∈ (kubernetesServices h w ns lagoonProject idleMinutes environmentType).trace,
        e.isPatch = false := by
    intro hblock
    have hall : Passive (kubernetesServices h w ns lagoonProject idleMinutes environmentType) :=
      kubernetesServices_only _ (fun _ he => he) h w ns lagoonProject idleMinutes environmentType
        (fun ds' _ _ => actuate_blocked h w ns idleMinutes environmentType ds' hblock)
    exact fun e he => (passive_facts e (hall e he)).1
  refine ⟨?_, ?_, ?_, by decide, by decide, numHits_eq_sum⟩
  · rintro ⟨err, herr⟩
    apply hquiet
    rw [hres, herr]
  · intro resp hresp hne
    apply hquiet
    rw [hres, hresp]
    simp [hne]
  · intro hdry hing
    constructor
    · rintro ⟨e, he, hpe⟩
      cases hq : w.query with
      | error err =>
        have := hquiet (by rw [hres, hq]) e he
        rw [this] at hpe
        cases hpe
      | ok resp =>
        refine ⟨resp, rfl, ?_⟩
        by_contra hne
        have := hquiet (by rw [hres, hq]; simp [hne]) e he
        rw [this] at hpe
        cases hpe
    · rintro ⟨resp, hresp, h0⟩
      obtain ⟨d, rest, p, hds, hp⟩ := serviceDeployments_idle h w ns idleMinutes ds ds 0 hidle
      have hgo : (hitCheck h w ns idleMinutes environmentType).result = some true := by
        rw [hres, hresp]
        simp [h0]
      obtain ⟨e, he, hpe⟩ :=
        actuate_patches h w ns idleMinutes environmentType d rest p hp hgo hdry hing
      refine ⟨e, ?_, hpe⟩
      rw [kubernetesServices_trace h w ns lagoonProject idleMinutes environmentType ds hb hd hidle]
      rw [hds]
      simp [he]
/-! ## Dry-run -/

theorem patches_append (s t : List Event) : patches (s ++ t) = patches s ++ patches t := by
  simp [patches]

theorem intents_append (s t : List Event) : intents (s ++ t) = intents s ++ intents t := by
  simp [intents]

theorem patches_of_passive {α : Type} {r : Run α} (h : Passive r) : patches r.trace = [] := by
  unfold patches
  rw [List.filterMap_eq_nil_iff]
  exact fun e he => (passive_facts e (h e he)).2.2.2.2.1

theorem intents_of_passive {α : Type} {r : Run α} (h : Passive r) : intents r.trace = [] := by
  unfold intents
  rw [List.filterMap_eq_nil_iff]
  exact fun e he => (passive_facts e (h e he)).2.2.2.2.2

theorem sim_bind {α β : Type} {m m' : Run α} {f f' : α → Run β} (hm : Sim m m')
    (hf : ∀ a, Sim (f a) (f' a)) : Sim (m >>= f) (m' >>= f') := by
  obtain ⟨h1, h2⟩ := hm
  constructor
  · rw [bind_trace, bind_trace, patches_append, intents_append, h1, h2]
    cases m'.result with
    | none => rfl
    | some a => simp [(hf a).1]
  · rw [bind_result, bind_result, h2]
    cases m'.result with
    | none => rfl
    | some a => simp [(hf a).2]

theorem sim_of_passive {α : Type} {m : Run α} (h : Passive m) : Sim m m :=
  ⟨by rw [patches_of_passive h, intents_of_passive h], rfl⟩

theorem sim_scaleCLI (h : Handler) (w : World) (i j : Nat) (d : Deployment) :
    Sim (scaleCLI (withDryRun h false) w i j d) (scaleCLI (withDryRun h true) w i j d) := by
  unfold scaleCLI withDryRun
  simp only [Bool.not_false, Bool.not_true, if_true, Bool.false_eq_true, if_false]
  cases hw : w.patchCLI i j <;> exact ⟨rfl, rfl⟩

theorem sim_cliPods (h : Handler) (w : World) (ns : String) (i : Nat) (d : Deployment) (j : Nat)
    (pods : List Pod) :
    Sim (cliPods (withDryRun h false) w ns i d j pods)
      (cliPods (withDryRun h true) w ns i d j pods) := by
  induction pods generalizing j with
  | nil => exact ⟨rfl, rfl⟩
  | cons pod rest ih =>
    unfold cliPods
    have hp : probePod (withDryRun h false) w ns i j pod = probePod (withDryRun h true) w ns i j pod :=
      rfl
    rw [hp]
    refine sim_bind (sim_of_passive (passive_probePod _ w ns i j pod)) fun r => ?_
    cases r with
    | none => exact ⟨rfl, rfl⟩
    | some c =>
      simp only []
      split
      · exact sim_bind (sim_scaleCLI h w i j d) fun _ => ih _
      · exact ih _

theorem sim_cliCheckPods (h : Handler) (w : World) (ns : String) (i : Nat) (d : Deployment) :
    Sim (cliCheckPods (withDryRun h false) w ns i d)
      (cliCheckPods (withDryRun h true) w ns i d) := by
  unfold cliCheckPods
  refine sim_bind (sim_of_passive (Only.emit rfl)) fun _ => ?_
  split
  · exact sim_of_passive (Only.emit rfl)
  · exact sim_cliPods h w ns i d 0 _

theorem sim_cliDeployment (h : Handler) (w : World) (ns : String) (all : List Deployment)
    (i : Nat) (d : Deployment) :
    Sim (cliDeployment (withDryRun h false) w ns all i d)
      (cliDeployment (withDryRun h true) w ns all i d) := by
  unfold cliDeployment
  dsimp only
  split
  · refine sim_bind (sim_of_passive (passive_deref _)) fun r => ?_
    refine sim_bind (sim_of_passive (Only.emit rfl)) fun _ => ?_
    refine sim_bind (sim_of_passive (Only.emitIf _ rfl)) fun _ => ?_
    have hc : cronCheck (withDryRun h false) d = cronCheck (withDryRun h true) d := rfl
    rw [hc]
    refine sim_bind (sim_of_passive (passive_cronCheck _ d)) fun c => ?_
    split
    · exact sim_bind (sim_cliCheckPods h w ns i d) fun _ => ⟨rfl, rfl⟩
    · exact ⟨rfl, rfl⟩
  · exact sim_of_passive (Only.bind (Only.emit rfl) fun _ _ => Only.pure _)

theorem sim_cliDeployments (h : Handler) (w : World) (ns : String) (all : List Deployment)
    (i : Nat) (ds : List Deployment) :
    Sim (cliDeployments (withDryRun h false) w ns all i ds)
      (cliDeployments (withDryRun h true) w ns all i ds) := by
  induction ds generalizing i with
  | nil => exact ⟨rfl, rfl⟩
  | cons d rest ih =>
    unfold cliDeployments
    refine sim_bind (sim_cliDeployment h w ns all i d) fun c => ?_
    split
    · exact ih _
    · exact ⟨rfl, rfl⟩

theorem sim_kubernetesCLI (h : Handler) (w : World) (ns : String) :
    Sim (kubernetesCLI (withDryRun h false) w ns) (kubernetesCLI (withDryRun h true) w ns) := by
  unfold kubernetesCLI
  have hb : cliBuildCheck (withDryRun h false) w ns = cliBuildCheck (withDryRun h true) w ns := rfl
  rw [hb]
  refine sim_bind (sim_of_passive (passive_cliBuildCheck _ w ns)) fun b => ?_
  split
  · refine sim_bind (sim_of_passive (Only.emit rfl)) fun _ => ?_
    split
    · exact sim_of_passive (Only.emit rfl)
    · exact sim_cliDeployments h w ns _ 0 _
  · exact ⟨rfl, rfl⟩
theorem passive_noPatch {α : Type} {r : Run α} (h : Passive r) :
    Only (fun e => e.isPatch = false) r :=
  h.mono fun e he => (passive_facts e he).1

theorem dry_scaleCLI (h : Handler) (w : World) (i j : Nat) (d : Deployment)
    (hdry : h.DryRun = true) : Only (fun e => e.isPatch = false) (scaleCLI h w i j d) := by
  unfold scaleCLI
  rw [hdry]
  exact Only.emit rfl

theorem dry_cliPods (h : Handler) (w : World) (ns : String) (i : Nat) (d : Deployment) (j : Nat)
    (pods : List Pod) (hdry : h.DryRun = true) :
    Only (fun e => e.isPatch = false) (cliPods h w ns i d j pods) := by
  induction pods generalizing j with
  | nil => exact Only.pure _
  | cons pod rest ih =>
    unfold cliPods
    refine Only.bind (passive_noPatch (passive_probePod h w ns i j pod)) fun r _ => ?_
    cases r with
    | none => exact Only.pure _
    | some c =>
      simp only []
      split
      · exact Only.bind (dry_scaleCLI h w i j d hdry) fun _ _ => ih _
      · exact ih _

theorem dry_cliDeployment (h : Handler) (w : World) (ns : String) (all : List Deployment)
    (i : Nat) (d : Deployment) (hdry : h.DryRun = true) :
    Only (fun e => e.isPatch = false) (cliDeployment h w ns all i d) := by
  unfold cliDeployment
  dsimp only
  split
  · refine Only.bind (passive_noPatch (passive_deref _)) fun r _ => ?_
    refine Only.bind (Only.emit rfl) fun _ _ => ?_
    refine Only.bind (Only.emitIf _ rfl) fun _ _ => ?_
    refine Only.bind (passive_noPatch (passive_cronCheck h d)) fun c _ => ?_
    split
    · refine Only.bind ?_ fun _ _ => Only.pure _
      unfold cliCheckPods
      refine Only.bind (Only.emit rfl) fun _ _ => ?_
      split
      · exact Only.emit rfl
      · exact dry_cliPods h w ns i d 0 _ hdry
    · exact Only.pure _
  · exact Only.bind (Only.emit rfl) fun _ _ => Only.pure _

theorem dry_kubernetesCLI (h : Handler) (w : World) (ns : String) (hdry : h.DryRun = true) :
    Only (fun e => e.isPatch = false) (kubernetesCLI h w ns) := by
  have hloop : ∀ all i ds, Only (fun e => e.isPatch = false) (cliDeployments h w ns all i ds) := by
    intro all i ds
    induction ds generalizing i with
    | nil => exact Only.pure _
    | cons d rest ih =>
      unfold cliDeployments
      refine Only.bind (dry_cliDeployment h w ns all i d hdry) fun c _ => ?_
      split
      · exact ih _
      · exact Only.pure _
  unfold kubernetesCLI
  refine Only.bind (passive_noPatch (passive_cliBuildCheck h w ns)) fun b _ => ?_
  split
  · refine Only.bind (Only.emit rfl) fun _ _ => ?_
    split
    · exact Only.emit rfl
    · exact hloop _ _ _
  · exact Only.pure _

theorem idleDeploymentsFrom_dry (h : Handler) (w : World) (hdry : h.DryRun = true) (i : Nat)
    (ds : List Deployment) :
    idleDeploymentsFrom h w i ds =
      ⟨ds.map (fun d => Event.info (.wouldBeScaled d.Name)), some ()⟩ := by
  induction ds generalizing i with
  | nil => rfl
  | cons d rest ih =>
    rw [idleDeploymentsFrom_cons, idleDeployment_dry h w i d hdry, ih (i + 1)]
    rfl

theorem dry_idleDeployments (h : Handler) (w : World) (ds : List Deployment)
    (hdry : h.DryRun = true) : Only (fun e => e.isPatch = false) (idleDeployments h w ds) := by
  unfold idleDeployments
  rw [idleDeploymentsFrom_dry h w hdry]
  intro e he
  simp only [List.mem_map] at he
  obtain ⟨d, _, rfl⟩ := he
  rfl

theorem dry_patchIngress (h : Handler) (w : World) (ns : String) (hdry : h.DryRun = true) :
    Only (fun e => e.isPatch = false) (patchIngress h w ns) := by
  unfold patchIngress
  split
  · refine Only.bind (Only.emit rfl) fun _ _ => ?_
    split
    · exact Only.bind (Only.emit rfl) fun _ _ => Only.pure _
    · rw [patchIngressFrom_dry h w hdry]
      intro e he
      simp only [List.mem_map] at he
      obtain ⟨g, _, rfl⟩ := he
      rfl
  · exact Only.pure _

theorem dry_kubernetesServices (h : Handler) (w : World) (ns lagoonProject : String)
    (idleMinutes : Int) (environmentType : String) (hdry : h.DryRun = true) :
    Only (fun e => e.isPatch = false)
      (kubernetesServices h w ns lagoonProject idleMinutes environmentType) :=
  kubernetesServices_only _ (fun e he => (passive_facts e he).1) h w ns lagoonProject idleMinutes
    environmentType fun ds _ _ =>
      actuate_only _ (fun e he => (passive_facts e he).1) h w ns idleMinutes environmentType ds
        (fun _ => dry_patchIngress h w ns hdry)
        (fun _ _ => ⟨rfl, dry_idleDeployments h w ds hdry⟩)

/-! ### The service pass with and without dry-run -/

theorem servicePods_dryRun (h : Handler) (w : World) (idleMinutes : Int) (i j : Nat)
    (pods : List Pod) (idle b : Bool) :
    servicePods (withDryRun h b) w idleMinutes i j pods idle =
      servicePods h w idleMinutes i j pods idle := by
  induction pods generalizing j idle with
  | nil => rfl
  | cons pod rest ih =>
    unfold servicePods
    simp only [ih]
    rfl

theorem serviceDeployments_dryRun (h : Handler) (w : World) (ns : String) (idleMinutes : Int)
    (all : List Deployment) (i : Nat) (ds : List Deployment) (idle b : Bool) :
    serviceDeployments (withDryRun h b) w ns idleMinutes all i ds idle =
      serviceDeployments h w ns idleMinutes all i ds idle := by
  induction ds generalizing i idle with
  | nil => rfl
  | cons d rest ih =>
    unfold serviceDeployments
    have hc : checkReplicas (withDryRun h b) all d = checkReplicas h all d := rfl
    simp only [ih, hc, servicePods_dryRun]

theorem prefix_idleDeployments (h : Handler) (w : World) (i : Nat) (ds : List Deployment) :
    patches (idleDeploymentsFrom (withDryRun h false) w i ds).trace <+:
      intents (idleDeploymentsFrom (withDryRun h true) w i ds).trace := by
  rw [idleDeploymentsFrom_dry (withDryRun h true) w rfl]
  induction ds generalizing i with
  | nil => exact List.nil_prefix
  | cons d rest ih =>
    rw [idleDeploymentsFrom_cons]
    cases hp : d.Replicas with
    | none =>
      rw [idleDeployment_nil _ w i d rfl hp]
      simp only [bind_trace]
      exact List.nil_prefix
    | some p =>
      obtain ⟨m, hm, _⟩ := idleDeployment_wet (withDryRun h false) w i d p rfl hp
      rw [hm]
      have hmp : (Event.info m).patched = none := rfl
      simp only [bind_trace, patches, intents, List.filterMap_append, List.filterMap_cons,
        Event.patched, hmp, List.filterMap_nil, List.map_cons, Event.intended,
        List.singleton_append, List.nil_append]
      exact (List.prefix_cons_inj _).2 (by simpa [patches, intents] using ih (i + 1))

theorem filterMap_some_map {α β : Type} (f : α → β) (l : List α) :
    l.filterMap (fun x => some (f x)) = l.map f := by
  induction l with
  | nil => rfl
  | cons a l ih => simp [ih]

theorem prefix_patchIngress (h : Handler) (w : World) (ns : String) :
    patches (patchIngress (withDryRun h false) w ns).trace <+:
      intents (patchIngress (withDryRun h true) w ns).trace ∧
    ((patchIngress (withDryRun h false) w ns).result = some none →
      patches (patchIngress (withDryRun h false) w ns).trace =
        intents (patchIngress (withDryRun h true) w ns).trace ∧
      (patchIngress (withDryRun h true) w ns).result = some none) := by
  unfold patchIngress
  have hs : (withDryRun h false).Selectors = (withDryRun h true).Selectors := rfl
  rw [hs]
  split
  · cases hl : w.ingresses with
    | error err => exact ⟨List.nil_prefix, fun hr => by simp at hr⟩
    | ok l =>
      simp only [emit_bind_trace, emit_bind_result]
      rw [patchIngressFrom_dry (withDryRun h true) w rfl]
      obtain ⟨n, hn, hp, hr, _, _⟩ := patchIngressFrom_wet (withDryRun h false) w rfl 0 l
      have hint : intents (Event.listIngress ns ::
          l.map (fun g => Event.info (.ingressWouldBePatched g.Name))) =
          l.map (fun g => Target.ingress g.Name) := by
        simp only [intents, List.filterMap_cons, Event.intended, List.filterMap_map,
          Function.comp_def]
        exact filterMap_some_map _ l
      have hpat : patches (Event.listIngress ns ::
          (patchIngressFrom (withDryRun h false) w 0 l).trace) =
          (l.take n).map (fun g => Target.ingress g.Name) := by
        rw [← hp]; simp [patches, Event.patched]
      rw [hint, hpat]
      refine ⟨?_, fun hres => ⟨?_, rfl⟩⟩
      · exact List.IsPrefix.map _ (List.take_prefix n l)
      · rw [hr hres, List.take_length]
  · exact ⟨List.prefix_refl _, fun _ => ⟨rfl, rfl⟩⟩

theorem prefix_bind_same {α β : Type} {m : Run α} {f f' : α → Run β} (hm : Passive m)
    (hf : ∀ a, patches (f a).trace <+: intents (f' a).trace) :
    patches (m >>= f).trace <+: intents (m >>= f').trace := by
  rw [bind_trace, bind_trace, patches_append, intents_append, patches_of_passive hm,
    intents_of_passive hm]
  cases m.result with
  | none => exact List.nil_prefix
  | some a => simpa using hf a

theorem prefix_actuate (h : Handler) (w : World) (ns : String) (idleMinutes : Int)
    (environmentType : String) (ds : List Deployment) :
    patches (actuate (withDryRun h false) w ns idleMinutes environmentType ds).trace <+:
      intents (actuate (withDryRun h true) w ns idleMinutes environmentType ds).trace := by
  unfold actuate
  have hh : hitCheck (withDryRun h false) w ns idleMinutes environmentType =
      hitCheck (withDryRun h true) w ns idleMinutes environmentType := rfl
  rw [hh]
  refine prefix_bind_same (passive_hitCheck _ w ns idleMinutes environmentType) fun c => ?_
  split
  · obtain ⟨hpre, heq⟩ := prefix_patchIngress h w ns
    rw [bind_trace, bind_trace, patches_append, intents_append]
    cases hr : (patchIngress (withDryRun h false) w ns).result with
    | none =>
      have : patches ([] : List Event) = [] := rfl
      simp only [this, List.append_nil]
      exact hpre.trans (List.prefix_append _ _)
    | some r =>
      cases r with
      | some err =>
        have : patches (emit (Event.info Msg.notIdled)).trace = [] := rfl
        simp only [this, List.append_nil]
        exact hpre.trans (List.prefix_append _ _)
      | none =>
        obtain ⟨h1, h2⟩ := heq hr
        rw [h1, h2]
        simp only [emit_bind_trace]
        refine (List.prefix_append_right_inj _).2 ?_
        have hp : patches (Event.info Msg.willBeIdled ::
            (idleDeployments (withDryRun h false) w ds).trace) =
            patches (idleDeployments (withDryRun h false) w ds).trace := rfl
        have hi : intents (Event.info Msg.willBeIdled ::
            (idleDeployments (withDryRun h true) w ds).trace) =
            intents (idleDeployments (withDryRun h true) w ds).trace := rfl
        rw [hp, hi]
        exact prefix_idleDeployments h w 0 ds
  · exact List.nil_prefix

theorem prefix_kubernetesServices (h : Handler) (w : World) (ns lagoonProject : String)
    (idleMinutes : Int) (environmentType : String) :
    patches (kubernetesServices (withDryRun h false) w ns lagoonProject idleMinutes
        environmentType).trace <+:
      intents (kubernetesServices (withDryRun h true) w ns lagoonProject idleMinutes
        environmentType).trace := by
  unfold kubernetesServices
  have hb : serviceBuildCheck (withDryRun h false) w ns = serviceBuildCheck (withDryRun h true) w ns :=
    rfl
  rw [hb]
  refine prefix_bind_same (passive_serviceBuildCheck _ w ns) fun b => ?_
  split
  · refine prefix_bind_same (Only.emit rfl) fun _ => ?_
    split
    · exact List.nil_prefix
    · rw [serviceDeployments_dryRun, serviceDeployments_dryRun]
      refine prefix_bind_same (passive_serviceDeployments h w ns idleMinutes _ 0 _ false)
        fun idle => ?_
      split
      · exact prefix_actuate h w ns idleMinutes environmentType _
      · exact List.nil_prefix
  · exact List.nil_prefix

/-- C8: with the dry-run flag set, `kubernetesCLI`, `kubernetesServices`,
`patchIngress` and `idleDeployments` issue no `Client.Patch` at all, whatever
the world answers; and the patches that the same pass issues with the flag
cleared, in the same world, are matched one for one and in order by the
dry-run log lines ("... would be scaled to 0", "... would be patched") of the
pass with the flag set. -/
theorem C8_dry_run_patches_nothing (h : Handler) (w : World) (ns lagoonProject : String)
    (idleMinutes : Int) (environmentType : String) (ds : List Deployment)
    (hdry : h.DryRun = true) :
    (∀ e ∈ (kubernetesCLI h w ns).trace, e.isPatch = false) ∧
    (∀ e ∈ (kubernetesServices h w ns lagoonProject idleMinutes environmentType).trace,
      e.isPatch = false) ∧
    (∀ e ∈ (patchIngress h w ns).trace, e.isPatch = false) ∧
    (∀ e ∈ (idleDeployments h w ds).trace, e.isPatch = false) ∧
    patches (kubernetesCLI (withDryRun h false) w ns).trace =
      intents (kubernetesCLI h w ns).trace ∧
    patches (kubernetesServices (withDryRun h false) w ns lagoonProject idleMinutes
        environmentType).trace <+:
      intents (kubernetesServices h w ns lagoonProject idleMinutes environmentType).trace ∧
    patches (patchIngress (withDryRun h false) w ns).trace <+:
      intents (patchIngress h w ns).trace ∧
    patches (idleDeployments (withDryRun h false) w ds).trace <+:
      intents (idleDeployments h w ds).trace := by
  have hh : withDryRun h true = h := by
    cases h
    simp only [withDryRun] at *
    rw [hdry]
  refine ⟨dry_kubernetesCLI h w ns hdry,
    dry_kubernetesServices h w ns lagoonProject idleMinutes environmentType hdry,
    dry_patchIngress h w ns hdry, dry_idleDeployments h w ds hdry, ?_, ?_, ?_, ?_⟩
  · have := (sim_kubernetesCLI h w ns).1
    rwa [hh] at this
  · have := prefix_kubernetesServices h w ns lagoonProject idleMinutes environmentType
    rwa [hh] at this
  · have := (prefix_patchIngress h w ns).1
    rwa [hh] at this
  · have := prefix_idleDeployments h w 0 ds
    rw [hh] at this
    exact this
/-! ## The CLI pass -/

theorem probePod_result (h : Handler) (w : World) (ns : String) (i j : Nat) (pod : Pod) (c : Int)
    (hproc : h.Selectors.CLI.SkipProcessCheck = false)
    (hres : (probePod h w ns i j pod).result = some (some c)) :
    ∃ out, w.execPod i j = .ok out ∧ processCount out = some c := by
  unfold probePod at hres
  rw [hproc] at hres
  simp only [Bool.not_false, if_true, emitIf_bind_result, emit_bind_result] at hres
  cases hx : w.execPod i j with
  | error err =>
    rw [hx] at hres
    simp at hres
  | ok out =>
    rw [hx] at hres
    simp only [] at hres
    refine ⟨out, rfl, ?_⟩
    cases hc : processCount out with
    | none =>
      rw [hc] at hres
      simp at hres
    | some c' =>
      rw [hc] at hres
      simp at hres
      rw [hres]

/-- Every deployment patch of the pod loop is aimed at the deployment of the loop. -/
theorem cliPods_names (h : Handler) (w : World) (ns : String) (i : Nat) (d : Deployment)
    (j : Nat) (pods : List Pod) :
    Only (fun e => ∀ n p, e = .patchDeployment n p → n = d.Name) (cliPods h w ns i d j pods) := by
  induction pods generalizing j with
  | nil => exact Only.pure _
  | cons pod rest ih =>
    unfold cliPods
    refine Only.bind ((passive_probePod h w ns i j pod).mono ?_) fun r _ => ?_
    · intro e he n p hnp
      subst hnp
      cases he
    · cases r with
      | none => exact Only.pure _
      | some c =>
        simp only []
        split
        · refine Only.bind ?_ fun _ _ => ih _
          unfold scaleCLI
          split
          · refine Only.bind (Only.emit ?_) fun _ _ => ?_
            · intro n p hnp
              injection hnp with hn _
              exact hn.symm
            · split <;> exact Only.emit (fun n p hnp => by cases hnp)
          · exact Only.emit (fun n p hnp => by cases hnp)
        · exact ih _

/-- When no probed pod yields a zero count, the pod loop issues no patch. -/
theorem cliPods_busy (h : Handler) (w : World) (ns : String) (i : Nat) (d : Deployment)
    (j : Nat) (pods : List Pod) (hproc : h.Selectors.CLI.SkipProcessCheck = false)
    (hbusy : ∀ k, k < pods.length → ∀ out, w.execPod i (j + k) = .ok out →
      processCount out ≠ some 0) :
    Passive (cliPods h w ns i d j pods) := by
  induction pods generalizing j with
  | nil => exact Only.pure _
  | cons pod rest ih =>
    have hrest : Passive (cliPods h w ns i d (j + 1) rest) :=
      ih (j + 1) fun k hk out hout =>
        hbusy (k + 1) (by simpa using hk) out (by
          have e : j + (k + 1) = j + 1 + k := by omega
          rw [e]; exact hout)
    unfold cliPods
    refine Only.bind (passive_probePod h w ns i j pod) fun r hr => ?_
    cases r with
    | none => exact Only.pure _
    | some c =>
      simp only []
      split
      · rename_i hc
        exfalso
        obtain ⟨out, hout, hpc⟩ := probePod_result h w ns i j pod c hproc hr
        have hc0 : c = 0 := by simpa using hc
        subst hc0
        exact hbusy 0 (by simp) out (by simpa using hout) hpc
      · exact hrest

theorem cliDeployment_shape (A : Event → Prop) (hpass : ∀ e, e.passive = true → A e)
    (h : Handler) (w : World) (ns : String) (all : List Deployment) (i : Nat) (d : Deployment)
    (hpods : ∀ pods, w.pods i = .ok pods → Only A (cliPods h w ns i d 0 pods)) :
    Only A (cliDeployment h w ns all i d) := by
  unfold cliDeployment
  dsimp only
  split
  · refine Only.bind ((passive_deref _).mono hpass) fun r _ => ?_
    refine Only.bind (Only.emit (hpass _ rfl)) fun _ _ => ?_
    refine Only.bind (Only.emitIf _ (hpass _ rfl)) fun _ _ => ?_
    refine Only.bind ((passive_cronCheck h d).mono hpass) fun c _ => ?_
    split
    · refine Only.bind ?_ fun _ _ => Only.pure _
      unfold cliCheckPods
      refine Only.bind (Only.emit (hpass _ rfl)) fun _ _ => ?_
      split
      · exact Only.emit (hpass _ rfl)
      · rename_i pods hp
        exact hpods pods hp
    · exact Only.pure _
  · exact Only.bind (Only.emit (hpass _ rfl)) fun _ _ => Only.pure _

theorem kubernetesCLI_shape (A : Event → Prop) (hpass : ∀ e, e.passive = true → A e)
    (h : Handler) (w : World) (ns : String)
    (hloop : ∀ ds, w.deployments = .ok ds → Only A (cliDeployments h w ns ds 0 ds)) :
    Only A (kubernetesCLI h w ns) := by
  unfold kubernetesCLI
  refine Only.bind ((passive_cliBuildCheck h w ns).mono hpass) fun b _ => ?_
  split
  · refine Only.bind (Only.emit (hpass _ rfl)) fun _ _ => ?_
    split
    · exact Only.emit (hpass _ rfl)
    · rename_i ds hds
      exact hloop ds hds
  · exact Only.pure _

/-- C10 (amended): in `kubernetesCLI` with process-checking enabled, if every
pod probed for a deployment yields a non-zero derived active-process count,
then no patch is issued for that deployment in that pass (the deployment being
the only one of its name in the listing). -/
theorem C10_busy_pods_block_scaling (h : Handler) (w : World) (ns : String)
    (ds : List Deployment) (i : Nat) (d : Deployment)
    (hds : w.deployments = .ok ds) (hi : ds[i]? = some d)
    (huniq : ∀ j d', ds[j]? = some d' → d'.Name = d.Name → j = i)
    (hproc : h.Selectors.CLI.SkipProcessCheck = false)
    (hbusy : ∀ pods, w.pods i = .ok pods → ∀ j, j < pods.length → ∀ out,
      w.execPod i j = .ok out → processCount out ≠ some 0) :
    ∀ p, Event.patchDeployment d.Name p ∉ (kubernetesCLI h w ns).trace := by
  have hpass : ∀ e : Event, e.passive = true → ∀ p, e ≠ .patchDeployment d.Name p := by
    intro e he p hp
    subst hp
    cases he
  have hloop : ∀ k rest, (∀ j d', rest[j]? = some d' → ds[k + j]? = some d') →
      Only (fun e => ∀ p, e ≠ .patchDeployment d.Name p) (cliDeployments h w ns ds k rest) := by
    intro k rest
    induction rest generalizing k with
    | nil => intro _; exact Only.pure _
    | cons d' rest ih =>
      intro hsuffix
      have hk : ds[k]? = some d' := by simpa using hsuffix 0 d' (by simp)
      unfold cliDeployments
      refine Only.bind ?_ fun c _ => ?_
      · refine cliDeployment_shape _ hpass h w ns ds k d' fun pods hp => ?_
        by_cases hki : k = i
        · subst hki
          refine (cliPods_busy h w ns k d' 0 pods hproc ?_).mono hpass
          intro j hj out hout
          exact hbusy pods hp j hj out (by simpa using hout)
        · refine (cliPods_names h w ns k d' 0 pods).mono ?_
          intro e he p hp'
          have hn := he _ _ hp'
          exact hki (huniq k d' hk hn.symm)
      · split
        · refine ih (k + 1) fun j d'' hj => ?_
          have := hsuffix (j + 1) d'' (by simpa using hj)
          have e : k + 1 + j = k + (j + 1) := by omega
          rw [e]; exact this
        · exact Only.pure _
  have hall := kubernetesCLI_shape _ hpass h w ns fun ds' hds' => by
    have e : ds' = ds := by
      rw [hds] at hds'
      injection hds' with hds'
      exact hds'.symm
    subst e
    exact hloop 0 ds' fun j d' hj => by simpa using hj
  intro p hmem
  exact hall _ hmem p rfl
/-! ## The zero-replica test -/

theorem foldl_max_ge (l : List Nat) (acc : Nat) :
    acc ≤ l.foldl max acc ∧ ∀ a ∈ l, a ≤ l.foldl max acc := by
  induction l generalizing acc with
  | nil => exact ⟨le_refl _, fun a ha => by cases ha⟩
  | cons b l ih =>
    obtain ⟨h1, h2⟩ := ih (max acc b)
    refine ⟨le_trans (le_max_left acc b) h1, fun a ha => ?_⟩
    rcases List.mem_cons.1 ha with rfl | ha
    · exact le_trans (le_max_right acc a) h1
    · exact h2 a ha

/-- The address of `new(int32)` differs from the address of the replica count
of every listed deployment. -/
theorem newInt32_fresh (all : List Deployment) (d : Deployment) (p : Int32Ptr) (v : Int)
    (hd : d ∈ all) (hp : d.Replicas = some p) : (newInt32 (liveAddrs all) v).addr ≠ p.addr := by
  have hmem : p.addr ∈ liveAddrs all := by
    unfold liveAddrs
    exact List.mem_filterMap.2 ⟨d, hd, by simp [hp]⟩
  have := (foldl_max_ge (liveAddrs all) 0).2 p.addr hmem
  unfold newInt32
  simp only
  omega

/-- The test `deployment.Spec.Replicas != zeroReps` of both passes holds for
every listed deployment, whatever its replica count: the branch "already
idled" is never taken. -/
theorem zero_replica_test_never_fires (all : List Deployment) (d : Deployment) (hd : d ∈ all) :
    ptrNe d.Replicas (some (newInt32 (liveAddrs all) 0)) = true := by
  cases hp : d.Replicas with
  | none => rfl
  | some p =>
    have := newInt32_fresh all d p 0 hd hp
    simp only [ptrNe, bne_iff_ne, ne_eq]
    exact fun h => this h.symm
/-! ## The claims -/

theorem idlePatch_lookup (idledAt unidle : String) :
    (idlePatch idledAt unidle).lookup unidleReplicasKey = some unidle := by
  have h1 : ("idling.amazee.io/idled-at" == unidleReplicasKey) = false := by decide
  have h2 : ("idling.amazee.io/unidle-replicas" == unidleReplicasKey) = true := by decide
  simp [MergePatch.lookup, idlePatch, List.find?, h1, h2]

/-- C2: every patch that `idleDeployments` issues (dry-run off) is the patch of
a listed deployment with a non-nil replica count `r`; it sets `spec.replicas`
to 0 and its annotation `idling.amazee.io/unidle-replicas` is the decimal text
of `max 1 r`; every deployment that the loop reaches gets this patch.  The
text is "3" for `r = 3`, "1" for every `r ≤ 0`, and never "0" nor the text of a
non-positive number. -/
theorem C2_unidle_replicas_hint (h : Handler) (w : World) (ds : List Deployment)
    (hdry : h.DryRun = false) :
    (∀ name patch, Event.patchDeployment name patch ∈ (idleDeployments h w ds).trace →
      patch.replicas = some 0 ∧
      ∃ (i : Nat) (d : Deployment) (p : Int32Ptr),
        ds[i]? = some d ∧ d.Name = name ∧ d.Replicas = some p ∧
        patch.lookup unidleReplicasKey = some (FormatInt (max 1 p.val))) ∧
    (∀ (i : Nat) (d : Deployment) (p : Int32Ptr), ds[i]? = some d → d.Replicas = some p →
      (∀ d' ∈ ds.take i, d'.Replicas ≠ none) →
      ∃ patch, Event.patchDeployment d.Name patch ∈ (idleDeployments h w ds).trace ∧
        patch.replicas = some 0 ∧
        patch.lookup unidleReplicasKey = some (FormatInt (max 1 p.val))) ∧
    FormatInt (max 1 3) = "3" ∧
    (∀ r : Int, r ≤ 0 → FormatInt (max 1 r) = "1") ∧
    (∀ r : Int, FormatInt (max 1 r) ≠ "0" ∧
      ∀ m : Int, m ≤ 0 → FormatInt (max 1 r) ≠ FormatInt m) := by
  refine ⟨?_, ?_, by decide, ?_, ?_⟩
  · intro name patch hmem
    obtain ⟨k, d, p, hk, hn, hp, hpatch⟩ := mem_idleDeploymentsFrom h w hdry ds 0 name patch hmem
    subst hpatch
    exact ⟨rfl, k, d, p, hk, hn, hp, idlePatch_lookup _ _⟩
  · intro i d p hi hp hbefore
    have := idleDeploymentsFrom_patches h w hdry ds 0 i d p hi hp hbefore
    exact ⟨_, this, rfl, idlePatch_lookup _ _⟩
  · intro r hr
    rw [max_eq_left (by omega)]
    rfl
  · intro r
    have h1 : (1 : Int) ≤ max 1 r := le_max_left 1 r
    exact ⟨FormatInt_pos_ne_zero _ h1, fun m hm => FormatInt_pos_ne _ m h1 hm⟩

/-- Witness of C2: two deployments with 3 and 0 replicas. -/
theorem C2_unidle_replicas_hint_witness :
    h0.DryRun = false ∧
    (Event.patchDeployment "nginx"
        (idlePatch "2024-01-01T00:00:00Z" "3") ∈
      (idleDeployments h0 w0 [dep "nginx" 1 3, dep "php" 2 0]).trace) ∧
    (∀ name patch, Event.patchDeployment name patch ∈
        (idleDeployments h0 w0 [dep "nginx" 1 3, dep "php" 2 0]).trace →
      patch.replicas = some 0) :=
  ⟨rfl, by decide,
    fun name patch hmem =>
      ((C2_unidle_replicas_hint h0 w0 [dep "nginx" 1 3, dep "php" 2 0] rfl).1 name patch hmem).1⟩

/-- C3 witness: a running build in both passes. -/
theorem C3_running_build_aborts_pass_witness :
    wBuild.builds = .ok [⟨"build-1", "Running", some 0⟩] ∧
    h0.Selectors.CLI.SkipBuildCheck = false ∧
    (kubernetesCLI h0 wBuild "ns").result = some () ∧
    ∀ e ∈ (kubernetesCLI h0 wBuild "ns").trace,
      e.isPatch = false ∧ e.isDeploymentListing = false ∧ e.isPodListing = false ∧
        e.isProbe = false :=
  ⟨rfl, rfl,
    (C3_running_build_aborts_pass h0 wBuild "ns" "proj" 240 "production"
      [⟨"build-1", "Running", some 0⟩] rfl ⟨_, List.mem_singleton.2 rfl, rfl⟩).1 rfl⟩

/-- C1 witness: the patch of the only ingress fails. -/
theorem C1_ingress_failure_blocks_scaling_witness :
    h0.Selectors.Service.SkipIngressPatch = false ∧ h0.DryRun = false ∧
    wIngressPatchFails.patchIngress 0 ≠ none ∧
    (∃ err, (patchIngress h0 wIngressPatchFails "ns").result = some (some err)) ∧
    ∀ e ∈ (kubernetesServices h0 wIngressPatchFails "ns" "proj" 240 "production").trace,
      e.isDeploymentPatch = false ∧ e ≠ .info .willBeIdled :=
  ⟨rfl, rfl, by decide,
    (C1_ingress_failure_blocks_scaling h0 wIngressPatchFails "ns" "proj" 240 "production" rfl rfl
      (Or.inr ⟨[⟨"ing"⟩], 0, rfl, by decide, by decide⟩)).1,
    (C1_ingress_failure_blocks_scaling h0 wIngressPatchFails "ns" "proj" 240 "production" rfl rfl
      (Or.inr ⟨[⟨"ing"⟩], 0, rfl, by decide, by decide⟩)).2.1⟩

/-- C4 witness: the service pass in `wService` patches. -/
theorem C4_traffic_gating_witness :
    (serviceBuildCheck h0 wService "ns").result = some false ∧
    (serviceDeployments h0 wService "ns" 240 [dep "nginx" 1 2, dep "php" 2 0] 0
      [dep "nginx" 1 2, dep "php" 2 0] false).result = some true ∧
    h0.Selectors.Service.SkipHitCheck = false ∧ h0.DryRun = false ∧
    ∃ e ∈ (kubernetesServices h0 wService "ns" "proj" 240 "production").trace,
      e.isPatch = true :=
  ⟨by decide, by decide, rfl, rfl,
    ((C4_traffic_gating h0 wService "ns" "proj" 240 "production"
      [dep "nginx" 1 2, dep "php" 2 0] (by decide) rfl (by decide) rfl).2.2.1 rfl
        (Or.inr ⟨_, rfl⟩)).2 ⟨_, rfl, by decide⟩⟩

/-- C4 as stated fails: with the idle flag set, hit-checking on, the query
answering two samples "0" and "0", no patch is issued when the dry-run flag is
set, and none when the ingress listing fails with the flag cleared. -/
theorem C4_counterexample :
    (serviceDeployments h0dry wService "ns" 240 [dep "nginx" 1 2, dep "php" 2 0] 0
      [dep "nginx" 1 2, dep "php" 2 0] false).result = some true ∧
    h0dry.Selectors.Service.SkipHitCheck = false ∧
    wService.query = .ok ⟨.vector [ascii "0", ascii "0"], []⟩ ∧
    wIngressListFails.query = .ok ⟨.vector [ascii "0", ascii "0"], []⟩ ∧
    numHits (.vector [ascii "0", ascii "0"]) = 0 ∧
    (∀ e ∈ (kubernetesServices h0dry wService "ns" "proj" 240 "production").trace,
      e.isPatch = false) ∧
    (serviceDeployments h0 wIngressListFails "ns" 240 [dep "nginx" 1 2, dep "php" 2 0] 0
      [dep "nginx" 1 2, dep "php" 2 0] false).result = some true ∧
    h0.DryRun = false ∧
    (∀ e ∈ (kubernetesServices h0 wIngressListFails "ns" "proj" 240 "production").trace,
      e.isPatch = false) :=
  ⟨by decide, rfl, rfl, rfl, by decide, by decide, by decide, rfl, by decide⟩

/-- C5 as stated fails: a deployment listed with zero replicas has its pods
listed, a pod probed and a patch issued in `kubernetesCLI`, has its pods listed
in `kubernetesServices`, and is patched by `idleDeployments`. -/
theorem C5_counterexample :
    wZeroReplicas.deployments = .ok [dep "cli" 1 0] ∧
    Event.listPods "ns" none ∈ (kubernetesCLI h0 wZeroReplicas "ns").trace ∧
    Event.execPod "cli-1" "ns" ∈ (kubernetesCLI h0 wZeroReplicas "ns").trace ∧
    Event.patchDeployment "cli" scalePatch ∈ (kubernetesCLI h0 wZeroReplicas "ns").trace ∧
    Event.listPods "ns" (some "cli") ∈
      (kubernetesServices h0 wZeroReplicas "ns" "proj" 240 "production").trace ∧
    Event.patchDeployment "cli" (idlePatch "2024-01-01T00:00:00Z" "1") ∈
      (idleDeployments h0 w0 [dep "cli" 1 0]).trace :=
  ⟨rfl, by decide, by decide, by decide, by decide, by decide⟩

/-- C5 (amended): `idleDeployments` (dry-run off) issues the idle patch for
every deployment of the list that its loop reaches, also for one whose replica
count is zero, whose unidle-replicas hint is then "1". -/
theorem C5_zero_replicas_are_patched (h : Handler) (w : World) (ds : List Deployment) (i : Nat)
    (d : Deployment) (p : Int32Ptr) (hdry : h.DryRun = false) (hi : ds[i]? = some d)
    (hp : d.Replicas = some p) (hzero : p.val = 0)
    (hbefore : ∀ d' ∈ ds.take i, d'.Replicas ≠ none) :
    Event.patchDeployment d.Name (idlePatch (w.now i) "1") ∈ (idleDeployments h w ds).trace := by
  have := idleDeploymentsFrom_patches h w hdry ds 0 i d p hi hp hbefore
  rw [hzero] at this
  simpa using this

/-- C5 witness: the second of two deployments has zero replicas. -/
theorem C5_zero_replicas_are_patched_witness :
    h0.DryRun = false ∧ (dep "php" 2 0).Replicas = some ⟨2, 0⟩ ∧
    Event.patchDeployment "php" (idlePatch "2024-01-01T00:00:00Z" "1") ∈
      (idleDeployments h0 w0 [dep "nginx" 1 3, dep "php" 2 0]).trace :=
  ⟨rfl, rfl,
    C5_zero_replicas_are_patched h0 w0 [dep "nginx" 1 3, dep "php" 2 0] 1 (dep "php" 2 0) ⟨2, 0⟩
      rfl rfl rfl rfl (by decide)⟩

/-- C6: when the trimmed probe output is not empty, with last byte `c`, the
active-process count derived in `kubernetesCLI` is the value of `c` as a
decimal digit and 0 when `c` is no digit; so "12" gives 2, "10" gives 0, and
the decimal text of any count `n` (with or without the final newline) gives
`n % 10`. -/
theorem C6_count_is_last_character (stdout : Bytes) (c : Nat)
    (hlast : (TrimSpace stdout).getLast? = some c) :
    processCount stdout = some (digitValue c) ∧
    processCount (ascii "12") = some 2 ∧ processCount (ascii "10") = some 0 ∧
    ∀ n : Nat, processCount (ascii (Nat.repr n)) = some ((n % 10 : Nat) : Int) ∧
      processCount (ascii (Nat.repr n) ++ [10]) = some ((n % 10 : Nat) : Int) :=
  ⟨processCount_of_last stdout c hlast, by decide, by decide, processCount_decimal⟩

/-- C6 witness: the output of `wc -l` for 12 processes. -/
theorem C6_count_is_last_character_witness :
    (TrimSpace (ascii " 12\n")).getLast? = some 50 ∧
    processCount (ascii " 12\n") = some (digitValue 50) :=
  ⟨by decide, (C6_count_is_last_character (ascii " 12\n") 50 (by decide)).1⟩

/-- C7 fails on the code: for a probe that prints nothing, or only white
space, the slice expression panics; the pass of `kubernetesCLI` ends in the
panic and issues no patch, whereas text that is no number gives the count 0
and the deployment is scaled. -/
theorem C7_blank_probe_output_panics :
    processCount (ascii "") = none ∧ processCount (ascii " \n") = none ∧
    wBlankProbe.execPod 0 0 = .ok (ascii "") ∧
    (kubernetesCLI h0 wBlankProbe "ns").result = none ∧
    (∀ e ∈ (kubernetesCLI h0 wBlankProbe "ns").trace, e.isPatch = false) ∧
    processCount (ascii "sh: pgrep: not found\n") = some 0 ∧
    (kubernetesCLI h0 wTextProbe "ns").result = some () ∧
    Event.patchDeployment "cli" scalePatch ∈ (kubernetesCLI h0 wTextProbe "ns").trace :=
  ⟨by decide, by decide, rfl, by decide, by decide, by decide, by decide, by decide⟩

/-- C8 witness: the service pass in `wService` under dry-run. -/
theorem C8_dry_run_patches_nothing_witness :
    h0dry.DryRun = true ∧
    (∀ e ∈ (kubernetesServices h0dry wService "ns" "proj" 240 "production").trace,
      e.isPatch = false) ∧
    patches (kubernetesServices (withDryRun h0dry false) wService "ns" "proj" 240
        "production").trace <+:
      intents (kubernetesServices h0dry wService "ns" "proj" 240 "production").trace :=
  ⟨rfl,
    (C8_dry_run_patches_nothing h0dry wService "ns" "proj" 240 "production" [] rfl).2.1,
    (C8_dry_run_patches_nothing h0dry wService "ns" "proj" 240 "production" [] rfl).2.2.2.2.2.1⟩

/-- C9 as stated fails: a deployment with a nil replica count makes
`idleDeployments` panic at the dereference, and no deployment of the list is
attempted. -/
theorem C9_counterexample :
    (idleDeployments h0 w0 [depNil "a", dep "b" 1 2]).result = none ∧
    patches (idleDeployments h0 w0 [depNil "a", dep "b" 1 2]).trace = [] ∧
    patches (idleDeployments h0 w0 [depNil "a", dep "b" 1 2]).trace ≠
      [.deployment "a", .deployment "b"] := by
  decide

/-- C9 (amended): `idleDeployments` (dry-run off), given deployments whose
replica counts are all non-nil, makes exactly one patch attempt for each
deployment of the list, in listing order, and ends normally, whatever patches
fail. -/
theorem C9_every_deployment_attempted_once (h : Handler) (w : World) (ds : List Deployment)
    (hdry : h.DryRun = false) (hall : ∀ d ∈ ds, d.Replicas ≠ none) :
    patches (idleDeployments h w ds).trace = ds.map (fun d => Target.deployment d.Name) ∧
      (idleDeployments h w ds).result = some () :=
  idleDeploymentsFrom_all h w hdry ds 0 hall

/-- C9 witness: every patch fails, and both deployments are attempted. -/
theorem C9_every_deployment_attempted_once_witness :
    h0.DryRun = false ∧
    patches (idleDeployments h0 { w0 with patchIdle := fun _ => some (.fromWorld "conflict") }
      [dep "nginx" 1 3, dep "php" 2 0]).trace = [.deployment "nginx", .deployment "php"] :=
  ⟨rfl,
    (C9_every_deployment_attempted_once h0
      { w0 with patchIdle := fun _ => some (.fromWorld "conflict") }
      [dep "nginx" 1 3, dep "php" 2 0] rfl (by decide)).1⟩

/-- C10 as stated fails: the first pod probed for the deployment yields the
count 3, and the deployment is scaled to zero all the same, at the second pod,
which yields the count 0. -/
theorem C10_counterexample :
    h0.Selectors.CLI.SkipCronCheck = false ∧ h0.Selectors.CLI.SkipProcessCheck = false ∧
    wMixedPods.pods 0 = .ok [pod "cli-1", pod "cli-2"] ∧
    wMixedPods.execPod 0 0 = .ok (ascii "3\n") ∧ processCount (ascii "3\n") = some 3 ∧
    Event.execPod "cli-1" "ns" ∈ (kubernetesCLI h0 wMixedPods "ns").trace ∧
    Event.patchDeployment "cli" scalePatch ∈ (kubernetesCLI h0 wMixedPods "ns").trace :=
  ⟨rfl, rfl, rfl, rfl, by decide, by decide, by decide⟩

/-- C10 witness: both pods of the deployment are busy. -/
theorem C10_busy_pods_block_scaling_witness :
    wBusyPods.deployments = .ok [dep "cli" 1 1] ∧
    h0.Selectors.CLI.SkipProcessCheck = false ∧
    processCount (ascii "3\n") ≠ some 0 ∧
    ∀ p, Event.patchDeployment "cli" p ∉ (kubernetesCLI h0 wBusyPods "ns").trace :=
  ⟨rfl, rfl, by decide,
    C10_busy_pods_block_scaling h0 wBusyPods "ns" [dep "cli" 1 1] 0 (dep "cli" 1 1) rfl rfl
      (fun j d' hj _ => by
        cases j with
        | zero => rfl
        | succ j => simp at hj)
      rfl
      (fun _ _ _ _ out hout => by
        have e : out = ascii "3\n" := by
          injection hout with hout
          exact hout.symm
        rw [e]
        decide)⟩
end Idler
